import Mathlib

/-!
Verification of the trainee-tracker task-completion subsystem.

This file gives a shallow embedding, in Lean 4, of the core logic of the
`tracker` Django application (models.py, views.py, signals.py): the cohort
registry, the task catalog with its order-conflict resolution, the sign-off
ledger (sign-off, unsign with audit, bulk sign-off), and the trainee/advanced
staff synchronizer.  Database tables are embedded as Lean lists of rows,
Django querysets as list operations, and a request handler as a pure function
from a database state and inputs to a result and a new database state.
A Django transaction that either commits or rolls back is embedded as a pure
function that returns either the updated state or the original one, so
"atomic" multi-row writes are single Lean function applications by
construction; crash/concurrency behaviour is outside this embedding.
Machine floats from Python's `float()` are embedded as exact rationals plus
the special values inf, ninf and nan; this is exact at all decimal string
inputs.
-/

/-! ## Python `float(str)` model

`sign_off_task` and `bulk_sign_off` validate scores with `float(score)` and a
`<` comparison.  We model the accepted string grammar (optional sign, digit
groups with single underscores between digits, optional decimal point,
optional exponent, and the named values inf/infinity/nan, case-insensitively,
after stripping surrounding whitespace) and the resulting value exactly as a
rational or a special value. -/

namespace Tracker

inductive PyNum where
  | finite (q : Rat)
  | inf
  | ninf
  | nan
deriving DecidableEq

/-- Split a character list at the first character satisfying `p`; the second
component is `none` when no character matches. -/
def splitFirst (p : Char → Bool) : List Char → List Char × Option (List Char)
  | [] => ([], none)
  | c :: rest =>
    if p c then ([], some rest)
    else
      let r := splitFirst p rest
      (c :: r.1, r.2)

/-- A valid Python digit group: nonempty digits with single underscores only
between digits (regex `\d(_?\d)*`). -/
def validGroup : List Char → Bool
  | [] => false
  | [c] => c.isDigit
  | c :: '_' :: rest => c.isDigit && validGroup rest
  | c :: rest => c.isDigit && validGroup rest

/-- Numeric value of a digit group, ignoring underscores. -/
def digitsToNat (l : List Char) : Nat :=
  l.foldl (fun acc c => if c = '_' then acc else acc * 10 + (c.toNat - '0'.toNat)) 0

/-- Strip one optional leading sign; returns (isNegative, rest). -/
def stripSign : List Char → Bool × List Char
  | '+' :: rest => (false, rest)
  | '-' :: rest => (true, rest)
  | l => (false, l)

/-- Parse an unsigned mantissa (digits with at most one decimal point). -/
def parseUnsigned (l : List Char) : Option Rat :=
  match splitFirst (fun c => c = '.') l with
  | (ip, none) => if validGroup ip then some ((digitsToNat ip : Nat) : Rat) else none
  | (ip, some fp) =>
    if (ip.isEmpty || validGroup ip) && (fp.isEmpty || validGroup fp) &&
        !(ip.isEmpty && fp.isEmpty) then
      some (((digitsToNat ip : Nat) : Rat) +
        ((digitsToNat fp : Nat) : Rat) / (10 : Rat) ^ (fp.countP (fun c => c ≠ '_')))
    else none

/-- Scale a rational by a (possibly negative) power of ten. -/
def applyExp (m : Rat) (e : Int) : Rat :=
  if 0 ≤ e then m * (10 : Rat) ^ e.toNat else m / (10 : Rat) ^ (-e).toNat

/-- Core of `float(str)` on an already whitespace-stripped character list. -/
def pyFloatCore (l : List Char) : Option PyNum :=
  let s := stripSign l
  let low := s.2.map Char.toLower
  if low = "inf".toList || low = "infinity".toList then
    some (if s.1 then .ninf else .inf)
  else if low = "nan".toList then some .nan
  else
    match splitFirst (fun c => c = 'e' || c = 'E') s.2 with
    | (mant, none) =>
      match parseUnsigned mant with
      | some q => some (.finite (if s.1 then -q else q))
      | none => none
    | (mant, some ex) =>
      match parseUnsigned mant with
      | none => none
      | some q =>
        let es := stripSign ex
        if validGroup es.2 then
          let e : Int := if es.1 then -(digitsToNat es.2 : Int) else (digitsToNat es.2 : Int)
          some (.finite (applyExp (if s.1 then -q else q) e))
        else none

/-- ASCII whitespace, as stripped by Python `str.strip()`. -/
def isSpaceChar (c : Char) : Bool :=
  c = ' ' || c = '\t' || c = '\n' || c = '\r' || c = '\x0b' || c = '\x0c'

/-- Python `s.strip()`: drop leading and trailing whitespace. -/
def pyStrip (s : String) : String :=
  ⟨((s.toList.dropWhile isSpaceChar).reverse.dropWhile isSpaceChar).reverse⟩

/-- Python `float(s)`: `some v` when the string parses, `none` when `float`
raises `ValueError` (`float` strips surrounding whitespace itself). -/
def pyFloat? (s : String) : Option PyNum := pyFloatCore (pyStrip s).toList

/-- Python `score_value < minimum` where `score_value` may be a special
float value: `nan < m` and `inf < m` are false, `-inf < m` is true. -/
def pyLt (v : PyNum) (m : Rat) : Bool :=
  match v with
  | .finite q => decide (q < m)
  | .inf => false
  | .ninf => true
  | .nan => false

/-- The `SignOff.score_validator` regex `^\d+(\.\d{1,2})?$` from models.py
(digits, optionally a decimal point and one or two decimal digits). -/
def scorePattern (s : String) : Bool :=
  match splitFirst (fun c => c = '.') s.toList with
  | (ip, none) => !ip.isEmpty && ip.all Char.isDigit
  | (ip, some fp) =>
    !ip.isEmpty && ip.all Char.isDigit && !fp.isEmpty &&
      decide (fp.length ≤ 2) && fp.all Char.isDigit

/-! ## Data model (models.py)

Rows carry the fields the core logic reads or writes.  Primary keys and
foreign keys are `Nat`; nullable foreign keys are `Option Nat`.  Timestamps
are abstract `Nat` instants (`auto_now_add` supplies the current instant on
insert only).  `DecimalField` values are exact rationals. -/

/-- A cohort row.  `semesterOrder` is recomputed on save (Spring=1, Fall=2). -/
structure Cohort where
  pk : Nat
  name : String
  year : Int
  semester : String
  semesterOrder : Int
  isCurrentOverride : Bool
deriving DecidableEq

/-- A calendar date, compared lexicographically. -/
structure Date where
  year : Int
  month : Nat
  day : Nat
deriving DecidableEq

/-- A trainee row (badge numbers carry a leading `#`). -/
structure Trainee where
  pk : Nat
  badgeNumber : String
  firstName : String
  lastName : String
  cohortPk : Nat
  isActive : Bool
deriving DecidableEq

/-- A task row.  `authorizedSigners` is the many-to-many user id set; empty
means any staff may sign off. -/
structure Task where
  pk : Nat
  ord : Int
  name : String
  requiresScore : Bool
  minimumScore : Option Rat
  isActive : Bool
  authorizedSigners : List Nat
deriving DecidableEq

/-- A sign-off row, unique per (trainee, task); `signedAt` is set on insert
only (`auto_now_add`). -/
structure SignOff where
  traineePk : Nat
  taskPk : Nat
  signedBy : Option Nat
  signedAt : Nat
  score : String
  notes : String
deriving DecidableEq

/-- An unsign audit row snapshotting a deleted sign-off. -/
structure UnsignLog where
  traineePk : Nat
  taskPk : Nat
  originalSignedBy : Option Nat
  originalSignedAt : Nat
  originalScore : String
  originalNotes : String
  unsignedBy : Option Nat
  unsignedAt : Nat
  reason : String
deriving DecidableEq

/-- An advanced-staff row (badge numbers carry no `#`). -/
structure AdvancedStaff where
  badgeNumber : String
  firstName : String
  lastName : String
  role : String
  isActive : Bool
deriving DecidableEq

/-- The staff profile attached to a user (sign-off capability). -/
structure StaffProfile where
  canSignOff : Bool
deriving DecidableEq

/-- The externally-authenticated acting user. -/
structure User where
  pk : Nat
  isStaff : Bool
  isSuperuser : Bool
  profile : Option StaffProfile
deriving DecidableEq

/-- The database state: one list of rows per table.  Each list is kept in
creation (insertion) order. -/
structure DB where
  cohorts : List Cohort
  trainees : List Trainee
  tasks : List Task
  signoffs : List SignOff
  unsignLogs : List UnsignLog
  advancedStaff : List AdvancedStaff
deriving DecidableEq

/-- `Task.can_user_sign_off`: true when no specific signers are set, else
membership in the authorized set. -/
def canUserSignOff (t : Task) (u : User) : Bool :=
  t.authorizedSigners.isEmpty || t.authorizedSigners.contains u.pk

/-! ## Cohort registry (models.py `Cohort`)

`Cohort.Meta.ordering = ['-year', '-semester_order']`, so any queryset
`.first()` returns a row maximal in the lexicographic (year, semester_order)
key; ties (impossible under the (year, semester) unique constraint) are
broken arbitrarily by the database and here by list position. -/

/-- `a` sorts strictly before `b` under the Meta ordering
`['-year', '-semester_order']`. -/
def cohortBefore (a b : Cohort) : Bool :=
  b.year < a.year || (a.year = b.year && b.semesterOrder < a.semesterOrder)

/-- Fold selecting the earliest row under the Meta ordering, seeded with a
current best. -/
def metaFold (b : Cohort) (l : List Cohort) : Cohort :=
  l.foldl (fun best x => if cohortBefore x best then x else best) b

/-- `queryset.first()` under the Meta ordering: the earliest row in the
ordering, i.e. a (year, semester_order)-maximal row. -/
def metaFirst : List Cohort → Option Cohort
  | [] => none
  | c :: cs => some (metaFold c cs)

/-- `Cohort.start_date`: Spring → Jan 1, Fall → Jul 1 of `year`. -/
def cohortStart (c : Cohort) : Date :=
  if c.semester = "Spring" then ⟨c.year, 1, 1⟩ else ⟨c.year, 7, 1⟩

/-- `Cohort.end_date`: Spring → Jun 30, Fall → Dec 31 of `year`. -/
def cohortEnd (c : Cohort) : Date :=
  if c.semester = "Spring" then ⟨c.year, 6, 30⟩ else ⟨c.year, 12, 31⟩

/-- Lexicographic date comparison `a ≤ b`. -/
def dateLe (a b : Date) : Bool :=
  a.year < b.year ||
    (a.year = b.year && (a.month < b.month ||
      (a.month = b.month && a.day ≤ b.day)))

/-- `Cohort.is_current`: `start_date <= today <= end_date`. -/
def cohortIsCurrent (c : Cohort) (today : Date) : Bool :=
  dateLe (cohortStart c) today && dateLe today (cohortEnd c)

/-- `Cohort.get_current_cohort`: first override row if any, else the first
row (in Meta ordering) whose date interval contains today, else
`objects.first()` (the Meta-ordering maximum), else `None`. -/
def getCurrentCohort (cohorts : List Cohort) (today : Date) : Option Cohort :=
  match metaFirst (cohorts.filter (·.isCurrentOverride)) with
  | some o => some o
  | none =>
    match metaFirst (cohorts.filter (fun c => cohortIsCurrent c today)) with
    | some c => some c
    | none => metaFirst cohorts

/-- The most recently created cohort: the last row in creation order.  This
follows the spec's words ("falls back to the most-recently-created cohort"),
for comparison with `getCurrentCohort`, which follows the source. -/
def mostRecentlyCreated (cohorts : List Cohort) : Option Cohort :=
  cohorts.getLast?

/-! ## Task catalog: order conflict resolution (models.py `Task.save`) -/

/-- `super().save()`: write all fields of `t` to its row, inserting the row
if its primary key is not present. -/
def taskUpsert (tasks : List Task) (t : Task) : List Task :=
  if tasks.any (fun x => x.pk = t.pk) then
    tasks.map (fun x => if x.pk = t.pk then t else x)
  else tasks ++ [t]

/-- `order_changed` of `Task.save`: true for a new task (`self.pk` unset),
else true when the stored row's order differs from the requested one, and
false when the row is missing (`Task.DoesNotExist` branch). -/
def taskOrderChanged (tasks : List Task) (isNew : Bool) (t : Task) : Bool :=
  if isNew then true
  else
    match tasks.find? (fun x => x.pk = t.pk) with
    | some old => decide (old.ord ≠ t.ord)
    | none => false

/-- `old_order` of `Task.save`. -/
def taskOldOrder (tasks : List Task) (isNew : Bool) (t : Task) : Option Int :=
  if isNew then none else (tasks.find? (fun x => x.pk = t.pk)).map (·.ord)

/-- `conflict_exists` of `Task.save`: some different task already holds the
requested order. -/
def taskConflict (tasks : List Task) (t : Task) : Bool :=
  tasks.any (fun x => x.ord = t.ord && x.pk ≠ t.pk)

/-- `Task.save` with auto-shifting (models.py lines 151-184).  `isNew` is
true when `self.pk` is unset (a new task); `t` carries the requested order
and, for a new task, the primary key the insert will assign.  On an order
change that collides with a different existing task, the saved task's row is
temporarily moved to order 999999, every other task with `order >= target`
is shifted up by one (from a queryset snapshot, so each shift uses the
pre-shift order), and finally the task is written with the target order.
The whole operation is one `@transaction.atomic` block, i.e. one pure
function application here. -/
def taskSave (tasks : List Task) (isNew : Bool) (t : Task) : List Task :=
  let tasks1 :=
    if taskOrderChanged tasks isNew t then
      if taskConflict tasks t then
        let tmp :=
          if (taskOldOrder tasks isNew t).isSome then
            tasks.map (fun x => if x.pk = t.pk then { x with ord := 999999 } else x)
          else tasks
        tmp.map (fun x =>
          if x.pk ≠ t.pk && t.ord ≤ x.ord then { x with ord := x.ord + 1 } else x)
      else tasks
    else tasks
  taskUpsert tasks1 t

/-- The net per-row effect of `Task.save` on a stored row: the saved row
takes all of `t`'s fields; with a conflict, every other row at or after the
target order moves up by one; without one, every other row is untouched. -/
def saveRow (t : Task) (conflict : Bool) (x : Task) : Task :=
  if x.pk = t.pk then t
  else if conflict && t.ord ≤ x.ord then { x with ord := x.ord + 1 } else x

/-! ## Sign-off ledger (views.py `sign_off_task`, `unsign_task`) -/

/-- The distinct user-visible failure messages of the sign-off and unsign
operations (each constructor is one distinct `messages.error` string in
views.py). -/
inductive SignOffError where
  | noProfile
  | noPermission
  | notAuthorized
  | notesTooLong
  | scoreRequired
  | belowMinimum
  | invalidFormat
  | notSignedOff
  | reasonTooLong
deriving DecidableEq

/-- The score validation of views.py lines 263-276 (and 547-573): when the
task requires a score and has a minimum, the score must be present, parse
under `float()`, and not compare below the minimum. -/
def validateScore (task : Task) (score : String) : Option SignOffError :=
  if task.requiresScore then
    match task.minimumScore with
    | none => none
    | some m =>
      if score = "" then some .scoreRequired
      else
        match pyFloat? score with
        | none => some .invalidFormat
        | some v => if pyLt v m then some .belowMinimum else none
  else none

/-- Key match for the (trainee, task) unique constraint. -/
def soKey (trPk tkPk : Nat) (s : SignOff) : Bool :=
  s.traineePk = trPk && s.taskPk = tkPk

/-- `sign_off_task` (views.py lines 234-298): profile check, authorization,
notes length, score validation, then `get_or_create` with an overwrite of
signer/score/notes on an existing row.  On an existing row `signed_at` is
untouched (`auto_now_add` fields are written on insert only). -/
def signOffTask (db : DB) (user : User) (trainee : Trainee) (task : Task)
    (rawScore : String) (notes : String) (now : Nat) : Except SignOffError DB :=
  match user.profile with
  | none => .error .noProfile
  | some p =>
    if !p.canSignOff then .error .noPermission
    else if !canUserSignOff task user then .error .notAuthorized
    else
      let score := pyStrip rawScore
      if notes.length > 10000 then .error .notesTooLong
      else
        match validateScore task score with
        | some e => .error e
        | none =>
          match db.signoffs.find? (soKey trainee.pk task.pk) with
          | none =>
            .ok { db with signoffs := db.signoffs ++
              [⟨trainee.pk, task.pk, some user.pk, now, score, notes⟩] }
          | some _ =>
            .ok { db with signoffs := db.signoffs.map (fun s =>
              if soKey trainee.pk task.pk s then
                { s with signedBy := some user.pk, score := score, notes := notes }
              else s) }

/-- `unsign_task` (views.py lines 301-356): staff/superuser gate, per-task
authorization (superuser overrides), lookup of the existing sign-off (a
distinct error when absent), reason length check, then an audit `UnsignLog`
snapshotting the sign-off's fields followed by deletion of the sign-off. -/
def unsignTask (db : DB) (user : User) (trainee : Trainee) (task : Task)
    (reason : String) (now : Nat) : Except SignOffError DB :=
  if !(user.isStaff || user.isSuperuser) then .error .noPermission
  else if !user.isSuperuser && !canUserSignOff task user then .error .notAuthorized
  else
    match db.signoffs.find? (soKey trainee.pk task.pk) with
    | none => .error .notSignedOff
    | some s =>
      if reason.length > 10000 then .error .reasonTooLong
      else
        .ok { db with
          unsignLogs :=
            ⟨trainee.pk, task.pk, s.signedBy, s.signedAt, s.score, s.notes,
              some user.pk, now, reason⟩ :: db.unsignLogs,
          signoffs := db.signoffs.eraseP (soKey trainee.pk task.pk) }

/-! ## Bulk sign-off transactor (views.py `bulk_sign_off`) -/

/-- The early-return failures of `bulk_sign_off` (each a distinct JSON error
response returned before any pair is processed). -/
inductive BulkFailure where
  | noStaffProfile
  | noSignOffPermission
  | emptySelection
  | tooManyTrainees
  | tooManyTasks
  | notesTooLong
  | traineesNotFound
  | tasksNotFound
deriving DecidableEq

/-- A `skipped` entry of the JSON response. -/
structure SkipEntry where
  trainee : String
  task : String
  reason : String
deriving DecidableEq

/-- An `errors` entry of the JSON response; the error kind stands for the
distinct message string views.py formats for it. -/
structure ErrEntry where
  trainee : String
  task : String
  error : SignOffError
deriving DecidableEq

/-- The JSON result object of a bulk sign-off that reached the per-pair
loop. -/
structure BulkResults where
  success : Bool
  created : Nat
  updated : Nat
  skipped : List SkipEntry
  errors : List ErrEntry
deriving DecidableEq

/-- Outcome of `bulk_sign_off`: an early error response, or the accumulated
results object. -/
inductive BulkOutcome where
  | failure (e : BulkFailure)
  | results (r : BulkResults)
deriving DecidableEq

/-- `scores.get(str(task.id), '')`. -/
def bulkScore (scores : List (Nat × String)) (taskPk : Nat) : String :=
  match scores.find? (fun p => p.1 = taskPk) with
  | some p => p.2
  | none => ""

/-- Loop accumulator: the in-transaction sign-off table plus the counters
and lists of the results object. -/
structure BulkAcc where
  signoffs : List SignOff
  created : Nat
  updated : Nat
  skipped : List SkipEntry
  errors : List ErrEntry
deriving DecidableEq

/-- The body of the nested `for trainee … for task …` loop of
`bulk_sign_off` (views.py lines 536-589): unauthorized pairs are recorded as
skipped, invalid scores as errors, and remaining pairs are written with
`update_or_create`. -/
def processPair (user : User) (scores : List (Nat × String)) (notes : String)
    (now : Nat) (acc : BulkAcc) (p : Trainee × Task) : BulkAcc :=
  if !canUserSignOff p.2 user then
    { acc with skipped := acc.skipped ++
      [⟨p.1.badgeNumber, p.2.name, "Not authorized to sign off this task"⟩] }
  else
    let score := bulkScore scores p.2.pk
    match validateScore p.2 score with
    | some e => { acc with errors := acc.errors ++ [⟨p.1.badgeNumber, p.2.name, e⟩] }
    | none =>
      match acc.signoffs.find? (soKey p.1.pk p.2.pk) with
      | some _ =>
        { acc with
          signoffs := acc.signoffs.map (fun s =>
            if soKey p.1.pk p.2.pk s then
              { s with signedBy := some user.pk, score := score, notes := notes }
            else s),
          updated := acc.updated + 1 }
      | none =>
        { acc with
          signoffs := acc.signoffs ++ [⟨p.1.pk, p.2.pk, some user.pk, now, score, notes⟩],
          created := acc.created + 1 }

/-- The cross product `trainees × tasks` in loop order. -/
def crossPairs (trs : List Trainee) (tks : List Task) : List (Trainee × Task) :=
  match trs with
  | [] => []
  | t :: rest => tks.map (fun k => (t, k)) ++ crossPairs rest tks

/-- The acting user may sign off the pair's task. -/
def pairAuthorized (user : User) (p : Trainee × Task) : Bool :=
  canUserSignOff p.2 user

/-- The pair's score (looked up by task id) passes the hard validation. -/
def pairValid (scores : List (Nat × String)) (p : Trainee × Task) : Bool :=
  (validateScore p.2 (bulkScore scores p.2.pk)).isNone

/-- The validation error charged to a hard-failing pair. -/
def pairErr (scores : List (Nat × String)) (p : Trainee × Task) : SignOffError :=
  match validateScore p.2 (bulkScore scores p.2.pk) with
  | some e => e
  | none => .invalidFormat

/-- The skipped-list entry recorded for an unauthorized pair. -/
def mkSkipEntry (p : Trainee × Task) : SkipEntry :=
  ⟨p.1.badgeNumber, p.2.name, "Not authorized to sign off this task"⟩

/-- The errors-list entry recorded for a hard-failing pair. -/
def mkErrEntry (scores : List (Nat × String)) (p : Trainee × Task) : ErrEntry :=
  ⟨p.1.badgeNumber, p.2.name, pairErr scores p⟩

/-- The queryset `Trainee.objects.filter(id__in=trainee_ids, is_active=True)`. -/
def bulkTrainees (db : DB) (traineeIds : List Nat) : List Trainee :=
  db.trainees.filter (fun t => traineeIds.contains t.pk && t.isActive)

/-- The queryset `Task.objects.filter(id__in=task_ids, is_active=True)`. -/
def bulkTasks (db : DB) (taskIds : List Nat) : List Task :=
  db.tasks.filter (fun t => taskIds.contains t.pk && t.isActive)

/-- The accumulator after the whole nested bulk loop has run. -/
def bulkAccOf (db : DB) (user : User) (traineeIds taskIds : List Nat)
    (scores : List (Nat × String)) (notes : String) (now : Nat) : BulkAcc :=
  (crossPairs (bulkTrainees db traineeIds) (bulkTasks db taskIds)).foldl
    (processPair user scores notes now) ⟨db.signoffs, 0, 0, [], []⟩

/-- `bulk_sign_off` (views.py lines 456-607).  After the early validation
returns, all pairs are processed inside one `transaction.atomic()` block;
when any hard validation error was accumulated, `transaction.set_rollback`
discards every row written by the batch while the counts, skipped list and
error list are still reported with `success=false`. -/
def bulkSignOff (db : DB) (user : User) (traineeIds taskIds : List Nat)
    (scores : List (Nat × String)) (notes : String) (now : Nat) :
    BulkOutcome × DB :=
  match user.profile with
  | none => (.failure .noStaffProfile, db)
  | some p =>
    if !p.canSignOff then (.failure .noSignOffPermission, db)
    else if traineeIds.isEmpty || taskIds.isEmpty then (.failure .emptySelection, db)
    else if traineeIds.length > 100 then (.failure .tooManyTrainees, db)
    else if taskIds.length > 100 then (.failure .tooManyTasks, db)
    else if notes.length > 10000 then (.failure .notesTooLong, db)
    else if (bulkTrainees db traineeIds).length ≠ traineeIds.length then
      (.failure .traineesNotFound, db)
    else if (bulkTasks db taskIds).length ≠ taskIds.length then
      (.failure .tasksNotFound, db)
    else
      let acc := bulkAccOf db user traineeIds taskIds scores notes now
      if acc.errors.isEmpty then
        (.results ⟨true, acc.created, acc.updated, acc.skipped, acc.errors⟩,
          { db with signoffs := acc.signoffs })
      else
        (.results ⟨false, acc.created, acc.updated, acc.skipped, acc.errors⟩, db)

/-! ## Trainee progress (models.py `Trainee.get_progress_percentage`) -/

/-- Python 3 banker's rounding of a rational to the nearest integer. -/
def roundHalfEven (q : Rat) : Int :=
  let f := q.floor
  let r := q - (f : Rat)
  if r < 1 / 2 then f
  else if 1 / 2 < r then f + 1
  else if f % 2 = 0 then f else f + 1

/-- Python `round(x, 1)`. -/
def round1 (q : Rat) : Rat := (roundHalfEven (q * 10) : Rat) / 10

/-- `Trainee.get_progress_percentage`: 0 when there are no active tasks,
else the trainee's distinct signed-off task count over the active task
count, as a percentage rounded to one decimal place. -/
def getProgressPercentage (db : DB) (tr : Trainee) : Rat :=
  let totalTasks := (db.tasks.filter (·.isActive)).length
  if totalTasks = 0 then 0
  else
    let completed :=
      ((db.signoffs.filter (fun s => s.traineePk = tr.pk)).map (·.taskPk)).dedup.length
    round1 ((completed : Rat) / (totalTasks : Rat) * 100)

/-! ## Dual-registry synchronizer (signals.py) -/

/-- The concrete fields of the `AdvancedStaff` model (models.py lines
266-291) plus the implicit primary key: the keyword arguments
`Model.objects.create` accepts. -/
def advancedStaffFields : List String :=
  ["id", "badge_number", "first_name", "last_name", "role", "is_active"]

/-- Django `Model.__init__` keyword checking: the first keyword argument
that is not a model field raises `TypeError`. -/
def invalidKwarg (fields : List String) (kwargs : List String) : Option String :=
  kwargs.find? (fun k => !fields.contains k)

/-- Python `s.lstrip('#')`. -/
def lstripHashAux : List Char → List Char
  | '#' :: rest => lstripHashAux rest
  | l => l

/-- Badge normalization `badge_number.lstrip('#')`. -/
def lstripHash (s : String) : String := ⟨lstripHashAux s.toList⟩

/-- `sync_trainee_to_advanced` (signals.py lines 54-107): with sync enabled,
find the `AdvancedStaff` matching the `#`-stripped badge and copy the three
mirrored fields when any differs; when absent, call
`AdvancedStaff.objects.create` with the keyword arguments written in the
source — including `badge_status`, which is not a field of the
`AdvancedStaff` model, so the call raises `TypeError`. -/
def syncTraineeToAdvanced (db : DB) (disableSync : Bool) (t : Trainee) :
    Except String DB :=
  if disableSync then .ok db
  else
    let badge := lstripHash t.badgeNumber
    match db.advancedStaff.find? (fun a => a.badgeNumber = badge) with
    | some a =>
      if a.firstName ≠ t.firstName || a.lastName ≠ t.lastName ||
          a.isActive ≠ t.isActive then
        .ok { db with advancedStaff := db.advancedStaff.map (fun x =>
          if x.badgeNumber = badge then
            { x with
              firstName := t.firstName
              lastName := t.lastName
              isActive := t.isActive }
          else x) }
      else .ok db
    | none =>
      match invalidKwarg advancedStaffFields
          ["badge_number", "first_name", "last_name", "role", "badge_status",
            "is_active"] with
      | some bad => .error ("TypeError: " ++ bad ++
          " is an invalid keyword argument for this function")
      | none =>
        .ok { db with advancedStaff := db.advancedStaff ++
          [⟨badge, t.firstName, t.lastName, "Trainee", t.isActive⟩] }

/-- Creating a Trainee row with the post_save signal attached: the insert
commits first, then the signal runs; a signal exception propagates to the
caller with the trainee row already persisted and no `AdvancedStaff`
written. -/
def createTraineeWithSync (db : DB) (disableSync : Bool) (t : Trainee) :
    Option String × DB :=
  let db1 := { db with trainees := db.trainees ++ [t] }
  match syncTraineeToAdvanced db1 disableSync t with
  | .ok db2 => (none, db2)
  | .error e => (some e, db1)

/-! ## Concrete fixtures for witnesses and counterexamples -/

/-- A staff profile with sign-off capability. -/
def sampleProfile : StaffProfile := ⟨true⟩

/-- A staff user with a sign-off-capable profile. -/
def sampleUser : User := ⟨1, true, false, some sampleProfile⟩

/-- A task requiring a score with minimum 70.00, open to all staff. -/
def quizTask : Task := ⟨10, 1, "Quiz", true, some 70, true, []⟩

/-- A task that does not require a score. -/
def tourTask : Task := ⟨11, 2, "Tour", false, none, true, []⟩

/-- A sample cohort row. -/
def sampleCohort : Cohort := ⟨1, "Spring 2025", 2025, "Spring", 1, false⟩

/-- A sample trainee row. -/
def sampleTrainee : Trainee := ⟨5, "#2501", "Ada", "Byron", 1, true⟩

/-- A sample database with one cohort, one trainee and two tasks. -/
def sampleDB : DB := ⟨[sampleCohort], [sampleTrainee], [quizTask, tourTask], [], [], []⟩

/-- `sampleDB` with one existing sign-off for (trainee 5, task 10). -/
def signedDB : DB :=
  ⟨[sampleCohort], [sampleTrainee], [quizTask, tourTask],
    [⟨5, 10, some 1, 3, "80", "ok"⟩], [], []⟩

/-- The state after unsigning (trainee 5, task 10) in `signedDB` at instant 9
with reason "because". -/
def unsignedDB : DB :=
  ⟨[sampleCohort], [sampleTrainee], [quizTask, tourTask], [],
    [⟨5, 10, some 1, 3, "80", "ok", some 1, 9, "because"⟩], []⟩

/-- The state after re-signing (trainee 5, task 10) in `signedDB` with score
"90" and notes "n2": `signedAt` keeps its original value 3. -/
def resignedDB : DB :=
  ⟨[sampleCohort], [sampleTrainee], [quizTask, tourTask],
    [⟨5, 10, some 1, 3, "90", "n2"⟩], [], []⟩

/-- A task only user 2 may sign off (`sampleUser`, pk 1, is unauthorized). -/
def restrictedTask : Task := ⟨13, 3, "Restricted", false, none, true, [2]⟩

/-- `sampleDB` extended with the restricted task. -/
def c6DB : DB :=
  ⟨[sampleCohort], [sampleTrainee], [quizTask, tourTask, restrictedTask],
    [], [], []⟩

/-! ## Theorems

The section-local reducibility attribute lets `decide`/`rfl` evaluate the
(kernel-computable but elaborator-irreducible) rational arithmetic at
concrete inputs. -/

section

attribute [local semireducible] Rat.add Rat.mul Rat.inv Rat.sub

/-- C7: for a task with `requires_score=True` and `minimum_score=70.00`, the
sign-off operation accepts score "70" and "70.00", rejects "69.99" with the
below-minimum error, rejects a missing score with the score-required error,
and rejects "abc" with the invalid-format error, distinct from the
below-minimum error. -/
theorem c7_score_boundary :
    (∃ db, signOffTask sampleDB sampleUser sampleTrainee quizTask "70" "" 0 = .ok db) ∧
    (∃ db, signOffTask sampleDB sampleUser sampleTrainee quizTask "70.00" "" 0 = .ok db) ∧
    signOffTask sampleDB sampleUser sampleTrainee quizTask "69.99" "" 0 =
      .error .belowMinimum ∧
    signOffTask sampleDB sampleUser sampleTrainee quizTask "" "" 0 =
      .error .scoreRequired ∧
    signOffTask sampleDB sampleUser sampleTrainee quizTask "abc" "" 0 =
      .error .invalidFormat ∧
    SignOffError.belowMinimum ≠ SignOffError.invalidFormat := by
  exact ⟨⟨_, by rfl⟩, ⟨_, by rfl⟩, by rfl, by rfl, by rfl, by decide⟩

/-- C5 (code evidence): with sync enabled and no matching AdvancedStaff row,
creating Trainee "#7001" makes the post_save signal call
`AdvancedStaff.objects.create` with keyword `badge_status`, which is not a
field of the `AdvancedStaff` model, so the create raises `TypeError`: no
AdvancedStaff row is created (while the trainee insert itself persists).
This contradicts the repository's own test suite
(`test_trainee_creates_advanced_staff`), which expects the creation to
succeed. -/
theorem c5_sync_create_typeerror :
    (createTraineeWithSync ⟨[sampleCohort], [], [], [], [], []⟩ false
        ⟨5, "#7001", "A", "B", 1, true⟩).1 =
      some "TypeError: badge_status is an invalid keyword argument for this function" ∧
    (createTraineeWithSync ⟨[sampleCohort], [], [], [], [], []⟩ false
        ⟨5, "#7001", "A", "B", 1, true⟩).2.advancedStaff = [] ∧
    (createTraineeWithSync ⟨[sampleCohort], [], [], [], [], []⟩ false
        ⟨5, "#7001", "A", "B", 1, true⟩).2.trainees =
      [⟨5, "#7001", "A", "B", 1, true⟩] ∧
    invalidKwarg advancedStaffFields
        ["badge_number", "first_name", "last_name", "role", "badge_status",
          "is_active"] =
      some "badge_status" := by
  exact ⟨by rfl, by rfl, by rfl, by rfl⟩

/-- `cohortBefore` is transitive. -/
theorem cohortBefore_trans {a b c : Cohort} (h1 : cohortBefore a b = true)
    (h2 : cohortBefore b c = true) : cohortBefore a c = true := by
  simp only [cohortBefore, Bool.or_eq_true, Bool.and_eq_true,
    decide_eq_true_eq] at h1 h2 ⊢
  omega

/-- `cohortBefore` is asymmetric. -/
theorem cohortBefore_asymm {a b : Cohort} (h : cohortBefore a b = true) :
    cohortBefore b a = false := by
  simp only [cohortBefore, Bool.or_eq_true, Bool.and_eq_true,
    decide_eq_true_eq, Bool.or_eq_false_iff, Bool.and_eq_false_iff,
    decide_eq_false_iff_not] at h ⊢
  omega

/-- `cohortBefore` is irreflexive. -/
theorem cohortBefore_irrefl (a : Cohort) : cohortBefore a a = false := by
  simp only [cohortBefore, Bool.or_eq_false_iff, Bool.and_eq_false_iff,
    decide_eq_false_iff_not]
  omega

/-- The Meta-ordering fold returns its seed or a list member, never a row a
list member sorts strictly before, and never a row the seed sorts strictly
before. -/
theorem metaFold_spec (l : List Cohort) (b : Cohort) :
    (metaFold b l = b ∨ metaFold b l ∈ l) ∧
    (metaFold b l = b ∨ cohortBefore (metaFold b l) b = true) ∧
    (∀ x ∈ l, cohortBefore x (metaFold b l) = false) := by
  induction l generalizing b with
  | nil =>
    refine ⟨Or.inl rfl, Or.inl rfl, ?_⟩
    intro x hx
    exact absurd hx (List.not_mem_nil x)
  | cons a t ih =>
    have step : metaFold b (a :: t) = metaFold (if cohortBefore a b then a else b) t := rfl
    by_cases hab : cohortBefore a b = true
    · have h := ih a
      rw [step, if_pos hab]
      refine ⟨?_, ?_, ?_⟩
      · rcases h.1 with h1 | h1
        · rw [h1]; exact Or.inr (List.mem_cons_self a t)
        · exact Or.inr (List.mem_cons_of_mem a h1)
      · rcases h.2.1 with h1 | h1
        · rw [h1]; exact Or.inr hab
        · exact Or.inr (cohortBefore_trans h1 hab)
      · intro x hx
        rcases List.mem_cons.mp hx with rfl | hxt
        · rcases h.2.1 with h1 | h1
          · rw [h1]; exact cohortBefore_irrefl x
          · exact cohortBefore_asymm h1
        · exact h.2.2 x hxt
    · have h := ih b
      rw [step, if_neg (by simpa using hab)]
      have hab' : cohortBefore a b = false := by
        revert hab; cases cohortBefore a b <;> simp
      refine ⟨?_, h.2.1, ?_⟩
      · rcases h.1 with h1 | h1
        · exact Or.inl h1
        · exact Or.inr (List.mem_cons_of_mem a h1)
      · intro x hx
        rcases List.mem_cons.mp hx with rfl | hxt
        · rcases h.2.1 with h1 | h1
          · rw [h1]; exact hab'
          · by_contra hc
            have hc' : cohortBefore x (metaFold b t) = true := by
              revert hc; cases cohortBefore x (metaFold b t) <;> simp
            have := cohortBefore_trans hc' h1
            rw [this] at hab'
            exact Bool.true_eq_false.mp hab'
        · exact h.2.2 x hxt

/-- `metaFirst` returns a member that no other member sorts strictly
before. -/
theorem metaFirst_spec (l : List Cohort) (c : Cohort)
    (hc : metaFirst l = some c) :
    c ∈ l ∧ ∀ x ∈ l, cohortBefore x c = false := by
  cases l with
  | nil => cases hc
  | cons a t =>
    have hcc : metaFold a t = c := by
      simpa [metaFirst] using hc
    have h := metaFold_spec t a
    rw [hcc] at h
    refine ⟨?_, ?_⟩
    · rcases h.1 with h1 | h1
      · exact h1 ▸ List.mem_cons_self a t
      · exact List.mem_cons_of_mem a h1
    · intro x hx
      rcases List.mem_cons.mp hx with rfl | hxt
      · rcases h.2.1 with h1 | h1
        · rw [← h1]; exact cohortBefore_irrefl _
        · exact cohortBefore_asymm h1
      · exact h.2.2 x hxt

/-- `metaFirst` is `none` exactly on the empty list. -/
theorem metaFirst_eq_none {l : List Cohort} : metaFirst l = none ↔ l = [] := by
  cases l <;> simp [metaFirst]

/-- C4 (counterexample): with no override and today in no cohort's interval,
`get_current_cohort` falls back to `objects.first()` under the Meta ordering
`['-year', '-semester_order']` — the greatest (year, semester) cohort — not
to the most-recently-created cohort.  Here Fall 2030 was created before
Spring 2020 (so Spring 2020 is the most recently created), yet the code
returns Fall 2030. -/
theorem c4_counterexample :
    getCurrentCohort [⟨1, "Fall 2030", 2030, "Fall", 2, false⟩,
        ⟨2, "Spring 2020", 2020, "Spring", 1, false⟩] ⟨1999, 1, 1⟩ =
      some ⟨1, "Fall 2030", 2030, "Fall", 2, false⟩ ∧
    mostRecentlyCreated [⟨1, "Fall 2030", 2030, "Fall", 2, false⟩,
        ⟨2, "Spring 2020", 2020, "Spring", 1, false⟩] =
      some ⟨2, "Spring 2020", 2020, "Spring", 1, false⟩ ∧
    (⟨1, "Fall 2030", 2030, "Fall", 2, false⟩ : Cohort) ≠
      ⟨2, "Spring 2020", 2020, "Spring", 1, false⟩ := by
  exact ⟨by rfl, by rfl, by decide⟩

/-- C4 (amended): `resolve_current_cohort` returns a cohort with
`is_current_override=True` when one exists (regardless of today's date);
otherwise a cohort whose [start_date, end_date] interval contains today when
one exists; otherwise it falls back to the first cohort under the default
ordering (greatest year, then Fall before Spring) — not the
most-recently-created cohort; and it returns null exactly when the registry
is empty. -/
theorem c4_current_cohort_resolution (cohorts : List Cohort) (today : Date) :
    (getCurrentCohort cohorts today = none ↔ cohorts = []) ∧
    ((∃ c ∈ cohorts, c.isCurrentOverride = true) →
      ∃ r, getCurrentCohort cohorts today = some r ∧ r ∈ cohorts ∧
        r.isCurrentOverride = true) ∧
    ((∀ c ∈ cohorts, c.isCurrentOverride = false) →
      (∃ c ∈ cohorts, cohortIsCurrent c today = true) →
      ∃ r, getCurrentCohort cohorts today = some r ∧ r ∈ cohorts ∧
        cohortIsCurrent r today = true) ∧
    ((∀ c ∈ cohorts, c.isCurrentOverride = false) →
      (∀ c ∈ cohorts, cohortIsCurrent c today = false) →
      getCurrentCohort cohorts today = metaFirst cohorts ∧
      ∀ r, getCurrentCohort cohorts today = some r →
        r ∈ cohorts ∧ ∀ c ∈ cohorts, cohortBefore c r = false) := by
  refine ⟨?_, ?_, ?_, ?_⟩
  · constructor
    · intro h
      by_contra hne
      have h3 : metaFirst cohorts ≠ none := fun hn =>
        hne (metaFirst_eq_none.mp hn)
      unfold getCurrentCohort at h
      cases h1 : metaFirst (cohorts.filter (·.isCurrentOverride)) with
      | some o => rw [h1] at h; cases h
      | none =>
        rw [h1] at h
        cases h2 : metaFirst (cohorts.filter (fun c => cohortIsCurrent c today)) with
        | some c => rw [h2] at h; cases h
        | none => rw [h2] at h; exact h3 h
    · intro h
      subst h
      rfl
  · intro ⟨c, hc, hov⟩
    have hne : cohorts.filter (·.isCurrentOverride) ≠ [] := by
      intro hnil
      have : c ∈ cohorts.filter (·.isCurrentOverride) :=
        List.mem_filter.mpr ⟨hc, by simpa using hov⟩
      rw [hnil] at this
      exact absurd this (List.not_mem_nil c)
    cases h1 : metaFirst (cohorts.filter (·.isCurrentOverride)) with
    | none => exact absurd (metaFirst_eq_none.mp h1) hne
    | some r =>
      have hmem := (metaFirst_spec _ r h1).1
      refine ⟨r, ?_, (List.mem_filter.mp hmem).1, by
        simpa using (List.mem_filter.mp hmem).2⟩
      unfold getCurrentCohort
      rw [h1]
  · intro hnoov ⟨c, hc, hcur⟩
    have hov0 : cohorts.filter (·.isCurrentOverride) = [] :=
      List.filter_eq_nil_iff.mpr (fun a ha => by simp [hnoov a ha])
    have hne : cohorts.filter (fun c => cohortIsCurrent c today) ≠ [] := by
      intro hnil
      have : c ∈ cohorts.filter (fun c => cohortIsCurrent c today) :=
        List.mem_filter.mpr ⟨hc, hcur⟩
      rw [hnil] at this
      exact absurd this (List.not_mem_nil c)
    cases h2 : metaFirst (cohorts.filter (fun c => cohortIsCurrent c today)) with
    | none => exact absurd (metaFirst_eq_none.mp h2) hne
    | some r =>
      have hmem := (metaFirst_spec _ r h2).1
      refine ⟨r, ?_, (List.mem_filter.mp hmem).1, (List.mem_filter.mp hmem).2⟩
      unfold getCurrentCohort
      rw [hov0, h2]
      rfl
  · intro hnoov hnocur
    have hov0 : cohorts.filter (·.isCurrentOverride) = [] :=
      List.filter_eq_nil_iff.mpr (fun a ha => by simp [hnoov a ha])
    have hcur0 : cohorts.filter (fun c => cohortIsCurrent c today) = [] :=
      List.filter_eq_nil_iff.mpr (fun a ha => by simp [hnocur a ha])
    have heq : getCurrentCohort cohorts today = metaFirst cohorts := by
      unfold getCurrentCohort
      rw [hov0, hcur0]
      rfl
    refine ⟨heq, fun r hr => ?_⟩
    rw [heq] at hr
    exact metaFirst_spec cohorts r hr

/-- C4 amended witness: a registry with one override cohort resolves to it
even on a date far outside its interval. -/
theorem c4_current_cohort_resolution_witness :
    ∃ r, getCurrentCohort [⟨1, "Spring 2025", 2025, "Spring", 1, true⟩]
        ⟨1999, 1, 1⟩ = some r ∧
      r ∈ [(⟨1, "Spring 2025", 2025, "Spring", 1, true⟩ : Cohort)] ∧
      r.isCurrentOverride = true :=
  (c4_current_cohort_resolution [⟨1, "Spring 2025", 2025, "Spring", 1, true⟩]
      ⟨1999, 1, 1⟩).2.1
    ⟨⟨1, "Spring 2025", 2025, "Spring", 1, true⟩, by simp, rfl⟩

/-- A successful `find?` splits the list around the found element, and
`eraseP` removes exactly that element. -/
theorem find?_eraseP_split {α : Type} (p : α → Bool) (l : List α) (a : α)
    (h : l.find? p = some a) :
    ∃ l₁ l₂, l = l₁ ++ a :: l₂ ∧ (∀ b ∈ l₁, p b = false) ∧ p a = true ∧
      l.eraseP p = l₁ ++ l₂ := by
  induction l with
  | nil => cases h
  | cons c t ih =>
    by_cases hc : p c = true
    · have hac : a = c := by
        rw [List.find?_cons_of_pos _ hc] at h
        exact (Option.some.inj h).symm
      subst hac
      exact ⟨[], t, rfl, by simp, hc, by simp [List.eraseP_cons, hc]⟩
    · have hcf : p c = false := by
        revert hc; cases p c <;> simp
      rw [List.find?_cons_of_neg _ (by simp [hcf])] at h
      obtain ⟨l₁, l₂, hsplit, hl₁, hpa, herase⟩ := ih h
      exact ⟨c :: l₁, l₂, by rw [hsplit]; rfl,
        fun b hb => by
          rcases List.mem_cons.mp hb with rfl | hbl
          · exact hcf
          · exact hl₁ b hbl,
        hpa, by simp [List.eraseP_cons, hcf, herase]⟩

/-- C2: on an existing sign-off for the pair, unsign atomically appends
exactly one `UnsignLog` whose snapshot fields (original signer, signed_at,
score, notes) equal the sign-off's fields, deletes exactly that sign-off
row, and touches no other table; when no sign-off exists for the pair (and
the caller passes the permission gates), it fails with the distinct
"not signed off" error, leaving the state unchanged (an error response
writes nothing). -/
theorem c2_unsign_audit (db : DB) (user : User) (tr : Trainee) (tk : Task)
    (reason : String) (now : Nat) :
    (∀ db', unsignTask db user tr tk reason now = .ok db' →
      ∃ s l₁ l₂, db.signoffs.find? (soKey tr.pk tk.pk) = some s ∧
        db.signoffs = l₁ ++ s :: l₂ ∧
        (∀ b ∈ l₁, soKey tr.pk tk.pk b = false) ∧
        soKey tr.pk tk.pk s = true ∧
        db'.signoffs = l₁ ++ l₂ ∧
        db'.unsignLogs =
          ⟨tr.pk, tk.pk, s.signedBy, s.signedAt, s.score, s.notes,
            some user.pk, now, reason⟩ :: db.unsignLogs ∧
        db'.cohorts = db.cohorts ∧ db'.trainees = db.trainees ∧
        db'.tasks = db.tasks ∧ db'.advancedStaff = db.advancedStaff) ∧
    ((user.isStaff = true ∨ user.isSuperuser = true) →
      (user.isSuperuser = true ∨ canUserSignOff tk user = true) →
      (∀ s ∈ db.signoffs, soKey tr.pk tk.pk s = false) →
      unsignTask db user tr tk reason now = .error .notSignedOff) := by
  constructor
  · intro db' h
    unfold unsignTask at h
    split at h
    · cases h
    · split at h
      · cases h
      · cases hf : db.signoffs.find? (soKey tr.pk tk.pk) with
        | none => rw [hf] at h; cases h
        | some s =>
          rw [hf] at h
          dsimp only at h
          split at h
          · cases h
          · injection h with h
            obtain ⟨l₁, l₂, hsplit, hl₁, hpa, herase⟩ :=
              find?_eraseP_split (soKey tr.pk tk.pk) db.signoffs s hf
            exact ⟨s, l₁, l₂, rfl, hsplit, hl₁, hpa,
              by rw [← h, herase], by rw [← h],
              by rw [← h], by rw [← h], by rw [← h], by rw [← h]⟩
  · intro h1 h2 h3
    have hor : (user.isStaff || user.isSuperuser) = true := by
      rcases h1 with h | h <;> simp [h]
    have hfind : db.signoffs.find? (soKey tr.pk tk.pk) = none :=
      List.find?_eq_none.mpr (fun a ha => by simp [h3 a ha])
    have hauth : (!user.isSuperuser && !canUserSignOff tk user) = false := by
      rcases h2 with h | h <;> simp [h]
    simp [unsignTask, hor, hauth, hfind]

/-- C2 witness: applying the theorem to a one-sign-off database. -/
theorem c2_unsign_audit_witness :
    ∃ s l₁ l₂,
      signedDB.signoffs.find? (soKey sampleTrainee.pk quizTask.pk) = some s ∧
      signedDB.signoffs = l₁ ++ s :: l₂ ∧
      (∀ b ∈ l₁, soKey sampleTrainee.pk quizTask.pk b = false) ∧
      soKey sampleTrainee.pk quizTask.pk s = true ∧
      unsignedDB.signoffs = l₁ ++ l₂ ∧
      unsignedDB.unsignLogs =
        ⟨sampleTrainee.pk, quizTask.pk, s.signedBy, s.signedAt, s.score,
          s.notes, some sampleUser.pk, 9, "because"⟩ :: signedDB.unsignLogs ∧
      unsignedDB.cohorts = signedDB.cohorts ∧
      unsignedDB.trainees = signedDB.trainees ∧
      unsignedDB.tasks = signedDB.tasks ∧
      unsignedDB.advancedStaff = signedDB.advancedStaff :=
  (c2_unsign_audit signedDB sampleUser sampleTrainee quizTask "because" 9).1
    unsignedDB (by rfl)

/-- C8: re-signing an existing sign-off for (trainee, task) overwrites only
signed_by, score and notes; `signed_at` keeps the original creation value
(every matching row keeps its traineePk, taskPk and signedAt under the row
update), and all rows without the key — and every other table — are
unchanged. -/
theorem c8_resign_frame (db db' : DB) (user : User) (tr : Trainee) (tk : Task)
    (rawScore notes : String) (now : Nat) (s : SignOff)
    (hs : s ∈ db.signoffs) (hkey : soKey tr.pk tk.pk s = true)
    (hok : signOffTask db user tr tk rawScore notes now = .ok db') :
    db'.signoffs = db.signoffs.map (fun x =>
      if soKey tr.pk tk.pk x then
        { x with
          signedBy := some user.pk
          score := pyStrip rawScore
          notes := notes }
      else x) ∧
    (∃ s' ∈ db'.signoffs, s'.traineePk = s.traineePk ∧ s'.taskPk = s.taskPk ∧
      s'.signedAt = s.signedAt ∧ s'.signedBy = some user.pk ∧
      s'.score = pyStrip rawScore ∧ s'.notes = notes) ∧
    (∀ x ∈ db.signoffs, soKey tr.pk tk.pk x = false → x ∈ db'.signoffs) ∧
    db'.cohorts = db.cohorts ∧ db'.trainees = db.trainees ∧
    db'.tasks = db.tasks ∧ db'.unsignLogs = db.unsignLogs ∧
    db'.advancedStaff = db.advancedStaff := by
  unfold signOffTask at hok
  cases hp : user.profile with
  | none => rw [hp] at hok; cases hok
  | some p =>
    rw [hp] at hok
    dsimp only at hok
    split at hok
    · cases hok
    · split at hok
      · cases hok
      · split at hok
        · cases hok
        · split at hok
          · cases hok
          · cases hfind : db.signoffs.find? (soKey tr.pk tk.pk) with
            | none =>
              exact absurd hkey (by simpa using List.find?_eq_none.mp hfind s hs)
            | some s0 =>
              rw [hfind] at hok
              dsimp only at hok
              injection hok with h
              refine ⟨by rw [← h], ?_, ?_, by rw [← h], by rw [← h],
                by rw [← h], by rw [← h], by rw [← h]⟩
              · refine ⟨{ s with
                    signedBy := some user.pk
                    score := pyStrip rawScore
                    notes := notes }, ?_,
                  rfl, rfl, rfl, rfl, rfl, rfl⟩
                rw [← h]
                have hm := List.mem_map_of_mem (fun x =>
                  if soKey tr.pk tk.pk x then
                    { x with
                      signedBy := some user.pk
                      score := pyStrip rawScore
                      notes := notes }
                  else x) hs
                simpa [hkey] using hm
              · intro x hx hxkey
                rw [← h]
                have hm := List.mem_map_of_mem (fun y =>
                  if soKey tr.pk tk.pk y then
                    { y with
                      signedBy := some user.pk
                      score := pyStrip rawScore
                      notes := notes }
                  else y) hx
                simpa [hxkey] using hm

/-- C8 witness: re-signing the one-sign-off database with score "90" keeps
`signedAt = 3`. -/
theorem c8_resign_frame_witness :
    resignedDB.signoffs = signedDB.signoffs.map (fun x =>
      if soKey sampleTrainee.pk quizTask.pk x then
        { x with
          signedBy := some sampleUser.pk
          score := pyStrip "90"
          notes := "n2" }
      else x) ∧
    (∃ s' ∈ resignedDB.signoffs,
      s'.traineePk = SignOff.traineePk ⟨5, 10, some 1, 3, "80", "ok"⟩ ∧
      s'.taskPk = SignOff.taskPk ⟨5, 10, some 1, 3, "80", "ok"⟩ ∧
      s'.signedAt = SignOff.signedAt ⟨5, 10, some 1, 3, "80", "ok"⟩ ∧
      s'.signedBy = some sampleUser.pk ∧
      s'.score = pyStrip "90" ∧ s'.notes = "n2") ∧
    (∀ x ∈ signedDB.signoffs, soKey sampleTrainee.pk quizTask.pk x = false →
      x ∈ resignedDB.signoffs) ∧
    resignedDB.cohorts = signedDB.cohorts ∧
    resignedDB.trainees = signedDB.trainees ∧
    resignedDB.tasks = signedDB.tasks ∧
    resignedDB.unsignLogs = signedDB.unsignLogs ∧
    resignedDB.advancedStaff = signedDB.advancedStaff :=
  c8_resign_frame signedDB resignedDB sampleUser sampleTrainee quizTask
    "90" "n2" 7 ⟨5, 10, some 1, 3, "80", "ok"⟩
    (by simp [signedDB]) (by rfl) (by rfl)

/-- Banker's rounding stays between integer bounds enclosing its input. -/
theorem roundHalfEven_bounds (q : Rat) (lo hi : Int) (h1 : (lo : Rat) ≤ q)
    (h2 : q ≤ (hi : Rat)) : lo ≤ roundHalfEven q ∧ roundHalfEven q ≤ hi := by
  have hfl : (Rat.floor q : Rat) ≤ q := Rat.le_floor.mp le_rfl
  have hlo : lo ≤ Rat.floor q := Rat.le_floor.mpr h1
  have hhi : Rat.floor q ≤ hi := by
    have hc : (Rat.floor q : Rat) ≤ (hi : Rat) := le_trans hfl h2
    exact_mod_cast hc
  unfold roundHalfEven
  dsimp only
  split
  · exact ⟨hlo, hhi⟩
  · rename_i hr1
    split
    · rename_i hr2
      have hflt : (Rat.floor q : Rat) < (hi : Rat) := by linarith
      have : Rat.floor q < hi := by exact_mod_cast hflt
      constructor <;> omega
    · rename_i hr2
      have hre : q - (Rat.floor q : Rat) = 1 / 2 := by
        by_contra hne
        rcases lt_or_gt_of_ne hne with hlt | hgt
        · exact hr1 hlt
        · exact hr2 hgt
      split
      · exact ⟨hlo, hhi⟩
      · have hflt : (Rat.floor q : Rat) < (hi : Rat) := by
          have : (Rat.floor q : Rat) = q - 1 / 2 := by linarith
          linarith
        have : Rat.floor q < hi := by exact_mod_cast hflt
        constructor <;> omega

/-- `round(x, 1)` stays in [0, 100] for x in [0, 100]. -/
theorem round1_bounds (q : Rat) (h1 : 0 ≤ q) (h2 : q ≤ 100) :
    0 ≤ round1 q ∧ round1 q ≤ 100 := by
  have h := roundHalfEven_bounds (q * 10) 0 1000
    (by push_cast; linarith) (by push_cast; linarith)
  unfold round1
  constructor
  · have hc : (0 : Rat) ≤ (roundHalfEven (q * 10) : Rat) := by exact_mod_cast h.1
    have h10 : (0 : Rat) < 10 := by norm_num
    exact div_nonneg hc (le_of_lt h10)
  · rw [div_le_iff₀ (by norm_num : (0 : Rat) < 10)]
    have hc : (roundHalfEven (q * 10) : Rat) ≤ 1000 := by exact_mod_cast h.2
    linarith

/-- C10: trainee progress is total: it returns 0 when there are no active
tasks (no division by zero); otherwise it is the distinct signed-off task
count over the active-task count as a percentage rounded to one decimal
place, and it lies in [0, 100] whenever every sign-off of the trainee
references an active task. -/
theorem c10_progress_safe (db : DB) (tr : Trainee) :
    ((db.tasks.filter (·.isActive)).length = 0 →
      getProgressPercentage db tr = 0) ∧
    ((db.tasks.filter (·.isActive)).length ≠ 0 →
      getProgressPercentage db tr =
        round1 (((((db.signoffs.filter (fun s => s.traineePk = tr.pk)).map
              (·.taskPk)).dedup.length : Rat) /
            (((db.tasks.filter (·.isActive)).length : Rat))) * 100)) ∧
    ((db.tasks.map (·.pk)).Nodup →
      (∀ s ∈ db.signoffs, s.traineePk = tr.pk →
        ∃ tk ∈ db.tasks, tk.pk = s.taskPk ∧ tk.isActive = true) →
      0 ≤ getProgressPercentage db tr ∧ getProgressPercentage db tr ≤ 100) := by
  refine ⟨fun h => by simp [getProgressPercentage, h], fun h => by
    simp [getProgressPercentage, h], ?_⟩
  intro hnodup hact
  by_cases h0 : (db.tasks.filter (·.isActive)).length = 0
  · simp [getProgressPercentage, h0]
  · have heq : getProgressPercentage db tr =
        round1 (((((db.signoffs.filter (fun s => s.traineePk = tr.pk)).map
            (·.taskPk)).dedup.length : Rat) /
          (((db.tasks.filter (·.isActive)).length : Rat))) * 100) := by
      simp [getProgressPercentage, h0]
    rw [heq]
    set c := ((db.signoffs.filter (fun s => s.traineePk = tr.pk)).map
      (·.taskPk)).dedup.length with hc
    set t := (db.tasks.filter (·.isActive)).length with ht
    have hsub : ((db.signoffs.filter (fun s => s.traineePk = tr.pk)).map
        (·.taskPk)).dedup ⊆ (db.tasks.filter (·.isActive)).map (·.pk) := by
      intro x hx
      have hx' := List.mem_dedup.mp hx
      obtain ⟨s, hs, hsx⟩ := List.mem_map.mp hx'
      have hsf := List.mem_filter.mp hs
      obtain ⟨tk, htk, htkpk, htkact⟩ :=
        hact s hsf.1 (by simpa using hsf.2)
      refine List.mem_map.mpr ⟨tk, List.mem_filter.mpr ⟨htk, by simp [htkact]⟩, ?_⟩
      rw [htkpk, hsx]
    have hpknodup : ((db.tasks.filter (·.isActive)).map (·.pk)).Nodup := by
      have hsl : List.Sublist ((db.tasks.filter (·.isActive)).map (·.pk))
          (db.tasks.map (·.pk)) :=
        (List.filter_sublist db.tasks).map (·.pk)
      exact hnodup.sublist hsl
    have hle : c ≤ t := by
      have hsp := List.subperm_of_subset (List.nodup_dedup _) hsub
      have := hsp.length_le
      simpa [hc, ht] using this
    have htpos : (0 : Rat) < (t : Rat) := by
      have : 0 < t := Nat.pos_of_ne_zero h0
      exact_mod_cast this
    have hdiv1 : ((c : Rat) / (t : Rat)) ≤ 1 :=
      div_le_one_of_le₀ (by exact_mod_cast hle) (le_of_lt htpos)
    have hdiv0 : (0 : Rat) ≤ (c : Rat) / (t : Rat) :=
      div_nonneg (by positivity) (le_of_lt htpos)
    exact round1_bounds _ (by nlinarith) (by nlinarith)

/-- C10 witness: the sample database with one signed-off task out of two
active tasks yields 50%. -/
theorem c10_progress_safe_witness :
    0 ≤ getProgressPercentage signedDB sampleTrainee ∧
    getProgressPercentage signedDB sampleTrainee ≤ 100 :=
  (c10_progress_safe signedDB sampleTrainee).2.2 (by decide)
    (fun s hs htr => ⟨quizTask, by simp [signedDB], by
      simp only [signedDB] at hs
      simp only [List.mem_singleton] at hs
      subst hs
      rfl, by rfl⟩)

/-- Closed form of a conflicting save of an existing task: every stored row
is rewritten by `saveRow t true`. -/
theorem taskSave_existing_conflict (tasks : List Task) (t old : Task)
    (hfind : tasks.find? (fun x => x.pk = t.pk) = some old)
    (hchanged : old.ord ≠ t.ord)
    (hconf : taskConflict tasks t = true) :
    taskSave tasks false t = tasks.map (saveRow t true) := by
  have hoc : taskOrderChanged tasks false t = true := by
    simp [taskOrderChanged, hfind, hchanged]
  have hoo : (taskOldOrder tasks false t).isSome = true := by
    simp [taskOldOrder, hfind]
  have holdpk : old.pk = t.pk := by simpa using List.find?_some hfind
  have hmem : old ∈ tasks := List.mem_of_find?_eq_some hfind
  unfold taskSave
  rw [hoc, hconf, hoo]
  simp only [if_true, ite_true]
  rw [List.map_map]
  have hany : ((tasks.map ((fun x =>
      if x.pk ≠ t.pk && t.ord ≤ x.ord then { x with ord := x.ord + 1 } else x) ∘
      (fun x => if x.pk = t.pk then { x with ord := 999999 } else x))).any
      (fun x => x.pk = t.pk)) = true := by
    rw [List.any_map]
    refine List.any_eq_true.mpr ⟨old, hmem, ?_⟩
    simp [Function.comp, holdpk]
  unfold taskUpsert
  rw [hany]
  simp only [if_true, ite_true]
  rw [List.map_map]
  apply List.map_congr_left
  intro x hx
  by_cases hxpk : x.pk = t.pk
  · simp [Function.comp, saveRow, hxpk]
  · by_cases hord : t.ord ≤ x.ord
    · simp [Function.comp, saveRow, hxpk, hord]
    · simp [Function.comp, saveRow, hxpk, hord]

/-- Closed form of a non-conflicting save of an existing task: only the
saved row changes. -/
theorem taskSave_existing_noconflict (tasks : List Task) (t old : Task)
    (hfind : tasks.find? (fun x => x.pk = t.pk) = some old)
    (hconf : taskConflict tasks t = false) :
    taskSave tasks false t = tasks.map (saveRow t false) := by
  have holdpk : old.pk = t.pk := by simpa using List.find?_some hfind
  have hmem : old ∈ tasks := List.mem_of_find?_eq_some hfind
  have hthen : ∀ b : Bool, (if b then
      (if taskConflict tasks t then
        (if (taskOldOrder tasks false t).isSome then
          tasks.map (fun x => if x.pk = t.pk then { x with ord := 999999 } else x)
        else tasks).map (fun x =>
          if x.pk ≠ t.pk && t.ord ≤ x.ord then { x with ord := x.ord + 1 } else x)
      else tasks)
    else tasks) = tasks := by
    intro b
    cases b
    · rfl
    · simp [hconf]
  unfold taskSave
  rw [hthen]
  have hany : (tasks.any (fun x => x.pk = t.pk)) = true :=
    List.any_eq_true.mpr ⟨old, hmem, by simp [holdpk]⟩
  unfold taskUpsert
  dsimp only
  rw [hany]
  simp only [if_true, ite_true]
  apply List.map_congr_left
  intro x hx
  by_cases hxpk : x.pk = t.pk
  · simp [saveRow, hxpk]
  · simp [saveRow, hxpk]

/-- Closed form of a conflicting save of a new task: stored rows are
rewritten by `saveRow t true` and the new row is appended. -/
theorem taskSave_new_conflict (tasks : List Task) (t : Task)
    (hnew : ∀ x ∈ tasks, x.pk ≠ t.pk)
    (hconf : taskConflict tasks t = true) :
    taskSave tasks true t = tasks.map (saveRow t true) ++ [t] := by
  have hoc : taskOrderChanged tasks true t = true := by
    simp [taskOrderChanged]
  have hoo : (taskOldOrder tasks true t).isSome = false := by
    simp [taskOldOrder]
  unfold taskSave
  rw [hoc, hconf, hoo]
  simp only [if_true, ite_true, Bool.false_eq_true, if_false, ite_false]
  have hany : ((tasks.map (fun x =>
      if x.pk ≠ t.pk && t.ord ≤ x.ord then { x with ord := x.ord + 1 } else x)).any
      (fun x => x.pk = t.pk)) = false := by
    rw [List.any_map]
    refine List.any_eq_false.mpr (fun x hx => ?_)
    have hxpk := hnew x hx
    by_cases hord : t.ord ≤ x.ord
    · simp [Function.comp, hxpk, hord]
    · simp [Function.comp, hxpk, hord]
  unfold taskUpsert
  rw [hany]
  simp only [Bool.false_eq_true, if_false, ite_false]
  congr 1
  apply List.map_congr_left
  intro x hx
  have hxpk := hnew x hx
  by_cases hord : t.ord ≤ x.ord
  · simp [saveRow, hxpk, hord]
  · simp [saveRow, hxpk, hord]

/-- Closed form of a non-conflicting save of a new task: the new row is
appended and nothing else changes. -/
theorem taskSave_new_noconflict (tasks : List Task) (t : Task)
    (hnew : ∀ x ∈ tasks, x.pk ≠ t.pk)
    (hconf : taskConflict tasks t = false) :
    taskSave tasks true t = tasks ++ [t] := by
  have hoc : taskOrderChanged tasks true t = true := by
    simp [taskOrderChanged]
  unfold taskSave
  rw [hoc, hconf]
  simp only [if_true, ite_true, Bool.false_eq_true, if_false, ite_false]
  have hany : (tasks.any (fun x => x.pk = t.pk)) = false :=
    List.any_eq_false.mpr (fun x hx => by simp [hnew x hx])
  unfold taskUpsert
  rw [hany]
  simp

/-- A false conflict check means no other row holds the target order. -/
theorem taskConflict_false {tasks : List Task} {t : Task}
    (h : taskConflict tasks t = false) :
    ∀ y ∈ tasks, y.pk ≠ t.pk → y.ord ≠ t.ord := by
  intro y hy hypk hyord
  have hx := List.any_eq_false.mp h y hy
  simp [hyord, hypk] at hx

/-- `saveRow` on the saved row yields `t` itself. -/
theorem saveRow_self {t : Task} (conflict : Bool) {z : Task}
    (hz : z.pk = t.pk) : saveRow t conflict z = t := by
  simp [saveRow, hz]

/-- `saveRow` on another row bumps its order exactly when there is a
conflict and the row's order is at or after the target. -/
theorem saveRow_ord_other {t : Task} {conflict : Bool} {z : Task}
    (hz : ¬z.pk = t.pk) :
    (saveRow t conflict z).ord =
      if conflict && decide (t.ord ≤ z.ord) then z.ord + 1 else z.ord := by
  simp only [saveRow, if_neg hz]
  by_cases h : (conflict && decide (t.ord ≤ z.ord)) = true
  · rw [if_pos h, if_pos h]
  · rw [if_neg h, if_neg h]

/-- `saveRow` keeps every row's primary key (the saved row's key included). -/
theorem saveRow_pk {t : Task} {conflict : Bool} {z : Task}
    (hz : ¬z.pk = t.pk) : (saveRow t conflict z).pk = z.pk := by
  simp only [saveRow, if_neg hz]
  by_cases h : (conflict && decide (t.ord ≤ z.ord)) = true
  · rw [if_pos h]
  · rw [if_neg h]

/-- The orders produced by `saveRow` over distinct stored rows stay
distinct. -/
theorem saveRow_ord_nodup (tasks : List Task) (t : Task) (conflict : Bool)
    (hpk : (tasks.map (·.pk)).Nodup) (hord : (tasks.map (·.ord)).Nodup)
    (hcompat : conflict = false → ∀ y ∈ tasks, y.pk ≠ t.pk → y.ord ≠ t.ord) :
    (tasks.map (fun x => (saveRow t conflict x).ord)).Nodup := by
  have hpkinj := List.inj_on_of_nodup_map hpk
  have hordinj := List.inj_on_of_nodup_map hord
  refine List.Nodup.map_on ?_ (List.Nodup.of_map (·.ord) hord)
  intro x hx y hy hxy
  by_cases hxpk : x.pk = t.pk <;> by_cases hypk : y.pk = t.pk
  · exact hpkinj hx hy (by rw [hxpk, hypk])
  · exfalso
    rw [saveRow_self conflict hxpk, saveRow_ord_other hypk] at hxy
    by_cases hcy : (conflict && decide (t.ord ≤ y.ord)) = true
    · rw [if_pos hcy] at hxy
      have := (Bool.and_eq_true _ _).mp hcy
      have h2 : t.ord ≤ y.ord := of_decide_eq_true this.2
      omega
    · rw [if_neg hcy] at hxy
      rcases Bool.and_eq_false_iff.mp (Bool.eq_false_iff.mpr hcy) with hcf | hcf
      · exact hcompat (Bool.eq_false_iff.mpr (by simp [hcf])) y hy hypk (by omega)
      · have : ¬t.ord ≤ y.ord := of_decide_eq_false hcf
        omega
  · exfalso
    rw [saveRow_self conflict hypk, saveRow_ord_other hxpk] at hxy
    by_cases hcx : (conflict && decide (t.ord ≤ x.ord)) = true
    · rw [if_pos hcx] at hxy
      have := (Bool.and_eq_true _ _).mp hcx
      have h2 : t.ord ≤ x.ord := of_decide_eq_true this.2
      omega
    · rw [if_neg hcx] at hxy
      rcases Bool.and_eq_false_iff.mp (Bool.eq_false_iff.mpr hcx) with hcf | hcf
      · exact hcompat (Bool.eq_false_iff.mpr (by simp [hcf])) x hx hxpk (by omega)
      · have : ¬t.ord ≤ x.ord := of_decide_eq_false hcf
        omega
  · refine hordinj hx hy ?_
    rw [saveRow_ord_other hxpk, saveRow_ord_other hypk] at hxy
    by_cases hcx : (conflict && decide (t.ord ≤ x.ord)) = true <;>
      by_cases hcy : (conflict && decide (t.ord ≤ y.ord)) = true
    · rw [if_pos hcx, if_pos hcy] at hxy
      omega
    · rw [if_pos hcx, if_neg hcy] at hxy
      have hx2 : t.ord ≤ x.ord := of_decide_eq_true ((Bool.and_eq_true _ _).mp hcx).2
      have hcb : conflict = true := ((Bool.and_eq_true _ _).mp hcx).1
      rcases Bool.and_eq_false_iff.mp (Bool.eq_false_iff.mpr hcy) with hcf | hcf
      · rw [hcb] at hcf; cases hcf
      · have hy2 : ¬t.ord ≤ y.ord := of_decide_eq_false hcf
        omega
    · rw [if_neg hcx, if_pos hcy] at hxy
      have hy2 : t.ord ≤ y.ord := of_decide_eq_true ((Bool.and_eq_true _ _).mp hcy).2
      have hcb : conflict = true := ((Bool.and_eq_true _ _).mp hcy).1
      rcases Bool.and_eq_false_iff.mp (Bool.eq_false_iff.mpr hcx) with hcf | hcf
      · rw [hcb] at hcf; cases hcf
      · have hx2 : ¬t.ord ≤ x.ord := of_decide_eq_false hcf
        omega
    · rw [if_neg hcx, if_neg hcy] at hxy
      exact hxy

/-- C3: on any save of a task (new or reordered) whose requested order
collides with a different existing task, afterwards all task orders are
distinct, the saved task holds the target order, every other task whose
original order was at or after the target has its order increased by
exactly one, and every other task below the target keeps its order; with no
collision, no other task row is modified.  The whole operation is one
atomic transaction (a single pure state update here). -/
theorem c3_task_order_conflict (tasks : List Task) (isNew : Bool) (t : Task)
    (hpk : (tasks.map (·.pk)).Nodup)
    (hord : (tasks.map (·.ord)).Nodup)
    (hself : isNew = false → ∃ x ∈ tasks, x.pk = t.pk)
    (hfresh : isNew = true → ∀ x ∈ tasks, x.pk ≠ t.pk) :
    ((taskSave tasks isNew t).map (·.ord)).Nodup ∧
    (∃ x ∈ taskSave tasks isNew t, x.pk = t.pk ∧ x.ord = t.ord) ∧
    (∀ x ∈ tasks, x.pk ≠ t.pk →
      (taskConflict tasks t = true → t.ord ≤ x.ord →
        { x with ord := x.ord + 1 } ∈ taskSave tasks isNew t) ∧
      (taskConflict tasks t = true → x.ord < t.ord →
        x ∈ taskSave tasks isNew t) ∧
      (taskConflict tasks t = false → x ∈ taskSave tasks isNew t)) := by
  cases isNew with
  | true =>
    have hnewf := hfresh rfl
    by_cases hconf : taskConflict tasks t = true
    · rw [taskSave_new_conflict tasks t hnewf hconf]
      refine ⟨?_, ?_, ?_⟩
      · rw [List.map_append, List.map_map]
        refine List.nodup_append.mpr ⟨?_, by simp, ?_⟩
        · exact saveRow_ord_nodup tasks t true hpk hord (by simp)
        · intro a ha hb
          simp only [List.map_map] at *
          obtain ⟨x, hx, hval⟩ := List.mem_map.mp ha
          simp only [Function.comp_apply] at hval
          have hxpk := hnewf x hx
          have hb' : a = t.ord := by simpa using hb
          rw [saveRow_ord_other hxpk] at hval
          by_cases hc : (true && decide (t.ord ≤ x.ord)) = true
          · rw [if_pos hc] at hval
            have h2 : t.ord ≤ x.ord := of_decide_eq_true (by simpa using hc)
            omega
          · rw [if_neg hc] at hval
            have h2 : ¬t.ord ≤ x.ord := fun hle => hc (by simpa using hle)
            omega
      · exact ⟨t, List.mem_append_right _ (by simp), rfl, rfl⟩
      · intro x hx hxpk
        refine ⟨fun _ hle => ?_, fun _ hlt => ?_, fun hcf => ?_⟩
        · refine List.mem_append_left _ (List.mem_map.mpr ⟨x, hx, ?_⟩)
          simp [saveRow, hxpk, hle]
        · refine List.mem_append_left _ (List.mem_map.mpr ⟨x, hx, ?_⟩)
          simp [saveRow, hxpk, not_le.mpr hlt]
        · rw [hconf] at hcf; cases hcf
    · have hcf : taskConflict tasks t = false := Bool.eq_false_iff.mpr hconf
      rw [taskSave_new_noconflict tasks t hnewf hcf]
      refine ⟨?_, ?_, ?_⟩
      · rw [List.map_append]
        refine List.nodup_append.mpr ⟨hord, by simp, ?_⟩
        intro a ha hb
        obtain ⟨x, hx, hval⟩ := List.mem_map.mp ha
        have hb' : a = t.ord := by simpa using hb
        exact taskConflict_false hcf x hx (hnewf x hx) (by rw [hval, hb'])
      · exact ⟨t, List.mem_append_right _ (by simp), rfl, rfl⟩
      · intro x hx hxpk
        refine ⟨fun hc _ => ?_, fun hc _ => ?_, fun _ => List.mem_append_left _ hx⟩
        · rw [hcf] at hc; cases hc
        · rw [hcf] at hc; cases hc
  | false =>
    obtain ⟨s0, hs0, hs0pk⟩ := hself rfl
    have hfs : (tasks.find? (fun x => x.pk = t.pk)).isSome := by
      rw [List.find?_isSome]
      exact ⟨s0, hs0, by simp [hs0pk]⟩
    obtain ⟨old, hfind⟩ := Option.isSome_iff_exists.mp hfs
    have holdpk : old.pk = t.pk := by simpa using List.find?_some hfind
    have holdmem : old ∈ tasks := List.mem_of_find?_eq_some hfind
    by_cases hconf : taskConflict tasks t = true
    · have hchanged : old.ord ≠ t.ord := by
        intro heq
        obtain ⟨y, hy, hyprop⟩ := List.any_eq_true.mp hconf
        have hy1 : y.ord = t.ord ∧ y.pk ≠ t.pk := by simpa using hyprop
        have hyold : y = old :=
          List.inj_on_of_nodup_map hord hy holdmem (by rw [hy1.1, heq])
        exact hy1.2 (by rw [hyold, holdpk])
      rw [taskSave_existing_conflict tasks t old hfind hchanged hconf]
      refine ⟨?_, ?_, ?_⟩
      · rw [List.map_map]
        exact saveRow_ord_nodup tasks t true hpk hord (by simp)
      · exact ⟨t, List.mem_map.mpr ⟨old, holdmem, saveRow_self true holdpk⟩,
          rfl, rfl⟩
      · intro x hx hxpk
        refine ⟨fun _ hle => ?_, fun _ hlt => ?_, fun hcf => ?_⟩
        · exact List.mem_map.mpr ⟨x, hx, by simp [saveRow, hxpk, hle]⟩
        · exact List.mem_map.mpr ⟨x, hx, by simp [saveRow, hxpk, not_le.mpr hlt]⟩
        · rw [hconf] at hcf; cases hcf
    · have hcf : taskConflict tasks t = false := Bool.eq_false_iff.mpr hconf
      rw [taskSave_existing_noconflict tasks t old hfind hcf]
      refine ⟨?_, ?_, ?_⟩
      · rw [List.map_map]
        exact saveRow_ord_nodup tasks t false hpk hord
          (fun _ => taskConflict_false hcf)
      · exact ⟨t, List.mem_map.mpr ⟨old, holdmem, saveRow_self false holdpk⟩,
          rfl, rfl⟩
      · intro x hx hxpk
        refine ⟨fun hc _ => ?_, fun hc _ => ?_, fun _ => ?_⟩
        · rw [hcf] at hc; cases hc
        · rw [hcf] at hc; cases hc
        · exact List.mem_map.mpr ⟨x, hx, by simp [saveRow, hxpk]⟩

/-- C3 witness: inserting a new task at order 1 over occupied orders 1 and 2
shifts both existing tasks up by one. -/
theorem c3_task_order_conflict_witness :
    ((taskSave [quizTask, tourTask] true
        ⟨12, 1, "Safety", false, none, true, []⟩).map (·.ord)).Nodup ∧
    (∃ x ∈ taskSave [quizTask, tourTask] true
        ⟨12, 1, "Safety", false, none, true, []⟩, x.pk = 12 ∧ x.ord = 1) ∧
    (∀ x ∈ ([quizTask, tourTask] : List Task), x.pk ≠ 12 →
      (taskConflict [quizTask, tourTask]
          ⟨12, 1, "Safety", false, none, true, []⟩ = true → 1 ≤ x.ord →
        { x with ord := x.ord + 1 } ∈ taskSave [quizTask, tourTask] true
          ⟨12, 1, "Safety", false, none, true, []⟩) ∧
      (taskConflict [quizTask, tourTask]
          ⟨12, 1, "Safety", false, none, true, []⟩ = true → x.ord < 1 →
        x ∈ taskSave [quizTask, tourTask] true
          ⟨12, 1, "Safety", false, none, true, []⟩) ∧
      (taskConflict [quizTask, tourTask]
          ⟨12, 1, "Safety", false, none, true, []⟩ = false →
        x ∈ taskSave [quizTask, tourTask] true
          ⟨12, 1, "Safety", false, none, true, []⟩)) :=
  c3_task_order_conflict [quizTask, tourTask] true
    ⟨12, 1, "Safety", false, none, true, []⟩
    (by decide) (by decide) (fun h => by cases h) (by decide)

/-- Effect of one bulk-loop iteration: an unauthorized pair only appends a
skip entry; a hard-failing pair only appends an error entry; a valid
authorized pair adds exactly one to created+updated; existing
(trainee, task) keys survive every iteration; and a valid authorized pair's
key is present afterwards. -/
theorem processPair_step (user : User) (scores : List (Nat × String))
    (notes : String) (now : Nat) (acc : BulkAcc) (p : Trainee × Task) :
    (processPair user scores notes now acc p).created +
        (processPair user scores notes now acc p).updated =
      acc.created + acc.updated +
        (if pairAuthorized user p && pairValid scores p then 1 else 0) ∧
    (processPair user scores notes now acc p).errors =
      acc.errors ++ (if pairAuthorized user p && !pairValid scores p then
        [mkErrEntry scores p] else []) ∧
    (processPair user scores notes now acc p).skipped =
      acc.skipped ++ (if !pairAuthorized user p then [mkSkipEntry p] else []) ∧
    (∀ a b, (acc.signoffs.find? (soKey a b)).isSome →
      ((processPair user scores notes now acc p).signoffs.find?
        (soKey a b)).isSome) ∧
    ((pairAuthorized user p && pairValid scores p) = true →
      ((processPair user scores notes now acc p).signoffs.find?
        (soKey p.1.pk p.2.pk)).isSome) := by
  by_cases hauth : canUserSignOff p.2 user = true
  · cases hv : validateScore p.2 (bulkScore scores p.2.pk) with
    | some e =>
      have hred : processPair user scores notes now acc p =
          { acc with errors := acc.errors ++ [⟨p.1.badgeNumber, p.2.name, e⟩] } := by
        simp [processPair, hauth, hv]
      rw [hred]
      refine ⟨by simp [pairAuthorized, pairValid, hauth, hv], ?_,
        by simp [pairAuthorized, hauth], fun a b h => h, ?_⟩
      · simp [pairAuthorized, pairValid, hauth, hv, mkErrEntry, pairErr]
      · intro hp
        simp [pairAuthorized, pairValid, hauth, hv] at hp
    | none =>
      cases hfind : acc.signoffs.find? (soKey p.1.pk p.2.pk) with
      | some s =>
        have hred : processPair user scores notes now acc p =
            { acc with
              signoffs := acc.signoffs.map (fun x =>
                if soKey p.1.pk p.2.pk x then
                  { x with
                    signedBy := some user.pk
                    score := bulkScore scores p.2.pk
                    notes := notes }
                else x)
              updated := acc.updated + 1 } := by
          simp [processPair, hauth, hv, hfind]
        rw [hred]
        refine ⟨by simp [pairAuthorized, pairValid, hauth, hv]; omega, ?_, ?_, ?_, ?_⟩
        · simp [pairAuthorized, pairValid, hauth, hv]
        · simp [pairAuthorized, hauth]
        · intro a b h
          rw [List.find?_isSome] at h ⊢
          obtain ⟨x, hx, hxk⟩ := h
          by_cases hxkey : soKey p.1.pk p.2.pk x = true
          · refine ⟨_, List.mem_map_of_mem _ hx, ?_⟩
            rw [if_pos hxkey]
            simp only [soKey] at hxk ⊢
            simpa using hxk
          · refine ⟨_, List.mem_map_of_mem _ hx, ?_⟩
            rw [if_neg hxkey]
            exact hxk
        · intro _
          rw [List.find?_isSome]
          have hs : s ∈ acc.signoffs := List.mem_of_find?_eq_some hfind
          have hsk : soKey p.1.pk p.2.pk s = true := List.find?_some hfind
          refine ⟨_, List.mem_map_of_mem _ hs, ?_⟩
          rw [if_pos hsk]
          simp only [soKey] at hsk ⊢
          simpa using hsk
      | none =>
        have hred : processPair user scores notes now acc p =
            { acc with
              signoffs := acc.signoffs ++
                [⟨p.1.pk, p.2.pk, some user.pk, now, bulkScore scores p.2.pk, notes⟩]
              created := acc.created + 1 } := by
          simp [processPair, hauth, hv, hfind]
        rw [hred]
        refine ⟨by simp [pairAuthorized, pairValid, hauth, hv]; omega, ?_, ?_, ?_, ?_⟩
        · simp [pairAuthorized, pairValid, hauth, hv]
        · simp [pairAuthorized, hauth]
        · intro a b h
          rw [List.find?_isSome] at h ⊢
          obtain ⟨x, hx, hxk⟩ := h
          exact ⟨x, List.mem_append_left _ hx, hxk⟩
        · intro _
          rw [List.find?_isSome]
          refine ⟨_, List.mem_append_right _ (List.mem_singleton_self _), ?_⟩
          simp [soKey]
  · have hred : processPair user scores notes now acc p =
        { acc with skipped := acc.skipped ++
          [⟨p.1.badgeNumber, p.2.name, "Not authorized to sign off this task"⟩] } := by
      simp [processPair, hauth]
    rw [hred]
    refine ⟨by simp [pairAuthorized, hauth], by simp [pairAuthorized, hauth],
      by simp [pairAuthorized, hauth, mkSkipEntry], fun a b h => h, ?_⟩
    intro hp
    simp [pairAuthorized, hauth] at hp

/-- Accumulated effect of the whole bulk loop: created+updated grows by the
number of authorized valid pairs, the error list by exactly the entries of
the authorized hard-failing pairs, the skipped list by exactly the entries
of the unauthorized pairs; existing keys survive, and every authorized valid
pair has a row afterwards. -/
theorem bulkLoop_spec (user : User) (scores : List (Nat × String))
    (notes : String) (now : Nat) (pairs : List (Trainee × Task))
    (acc : BulkAcc) :
    ((pairs.foldl (processPair user scores notes now) acc).created +
        (pairs.foldl (processPair user scores notes now) acc).updated =
      acc.created + acc.updated +
        (pairs.filter (fun p => pairAuthorized user p && pairValid scores p)).length) ∧
    ((pairs.foldl (processPair user scores notes now) acc).errors =
      acc.errors ++ (pairs.filter (fun p =>
        pairAuthorized user p && !pairValid scores p)).map (mkErrEntry scores)) ∧
    ((pairs.foldl (processPair user scores notes now) acc).skipped =
      acc.skipped ++ (pairs.filter (fun p =>
        !pairAuthorized user p)).map mkSkipEntry) ∧
    (∀ a b, (acc.signoffs.find? (soKey a b)).isSome →
      (((pairs.foldl (processPair user scores notes now) acc).signoffs).find?
        (soKey a b)).isSome) ∧
    (∀ p ∈ pairs, (pairAuthorized user p && pairValid scores p) = true →
      (((pairs.foldl (processPair user scores notes now) acc).signoffs).find?
        (soKey p.1.pk p.2.pk)).isSome) := by
  induction pairs generalizing acc with
  | nil => simp
  | cons p rest ih =>
    have step := processPair_step user scores notes now acc p
    have ihs := ih (processPair user scores notes now acc p)
    simp only [List.foldl_cons]
    refine ⟨?_, ?_, ?_, ?_, ?_⟩
    · rw [ihs.1, step.1]
      by_cases hp : (pairAuthorized user p && pairValid scores p) = true <;>
        simp only [List.filter_cons, hp, if_true, if_false, ite_true, ite_false,
          List.length_cons, Bool.false_eq_true] <;>
        omega
    · rw [ihs.2.1, step.2.1]
      by_cases hp : (pairAuthorized user p && !pairValid scores p) = true <;>
        simp [List.filter_cons, hp, List.append_assoc]
    · rw [ihs.2.2.1, step.2.2.1]
      by_cases hp : (!pairAuthorized user p) = true <;>
        simp [List.filter_cons, hp, List.append_assoc]
    · intro a b h
      exact ihs.2.2.2.1 a b (step.2.2.2.1 a b h)
    · intro q hq hqp
      rcases List.mem_cons.mp hq with rfl | hqrest
      · exact ihs.2.2.2.1 q.1.pk q.2.pk (step.2.2.2.2 hqp)
      · exact ihs.2.2.2.2 q hqrest hqp

/-- Members of the cross product project to members of the factors. -/
theorem crossPairs_mem {trs : List Trainee} {tks : List Task}
    {p : Trainee × Task} (hp : p ∈ crossPairs trs tks) :
    p.1 ∈ trs ∧ p.2 ∈ tks := by
  induction trs with
  | nil => cases hp
  | cons t rest ih =>
    rw [crossPairs] at hp
    rcases List.mem_append.mp hp with hl | hr
    · obtain ⟨k, hk, hpk⟩ := List.mem_map.mp hl
      subst hpk
      exact ⟨List.mem_cons_self t rest, hk⟩
    · obtain ⟨h1, h2⟩ := ih hr
      exact ⟨List.mem_cons_of_mem t h1, h2⟩

/-- When `bulk_sign_off` reaches the per-pair loop, its result object and
its final state are exactly those of the loop accumulator: success iff no
hard error, committed sign-offs on success, the original table on
rollback. -/
theorem bulkSignOff_results (db : DB) (user : User)
    (traineeIds taskIds : List Nat) (scores : List (Nat × String))
    (notes : String) (now : Nat) (r : BulkResults)
    (hr : (bulkSignOff db user traineeIds taskIds scores notes now).1 =
      .results r) :
    r = ⟨(bulkAccOf db user traineeIds taskIds scores notes now).errors.isEmpty,
        (bulkAccOf db user traineeIds taskIds scores notes now).created,
        (bulkAccOf db user traineeIds taskIds scores notes now).updated,
        (bulkAccOf db user traineeIds taskIds scores notes now).skipped,
        (bulkAccOf db user traineeIds taskIds scores notes now).errors⟩ ∧
    (bulkSignOff db user traineeIds taskIds scores notes now).2 =
      (if (bulkAccOf db user traineeIds taskIds scores notes now).errors.isEmpty
        then { db with
          signoffs := (bulkAccOf db user traineeIds taskIds scores notes now).signoffs }
        else db) := by
  unfold bulkSignOff at hr ⊢
  cases hp : user.profile with
  | none => rw [hp] at hr; cases hr
  | some prof =>
    rw [hp] at hr
    dsimp only at hr ⊢
    split at hr
    · cases hr
    · split at hr
      · cases hr
      · split at hr
        · cases hr
        · split at hr
          · cases hr
          · split at hr
            · cases hr
            · split at hr
              · cases hr
              · split at hr
                · cases hr
                · rename_i h1 h2 h3 h4 h5 h6 h7
                  rw [if_neg h1, if_neg h2, if_neg h3, if_neg h4, if_neg h5,
                    if_neg h6, if_neg h7]
                  by_cases he : (bulkAccOf db user traineeIds taskIds scores
                      notes now).errors.isEmpty = true
                  · rw [if_pos he] at hr ⊢
                    injection hr with hr
                    rw [← hr, he]
                    exact ⟨rfl, rfl⟩
                  · rw [if_neg he] at hr ⊢
                    injection hr with hr
                    rw [← hr, Bool.eq_false_iff.mpr he]
                    exact ⟨rfl, rfl⟩

/-- `bulkAccOf` unfolded. -/
theorem bulkAccOf_def (db : DB) (user : User) (traineeIds taskIds : List Nat)
    (scores : List (Nat × String)) (notes : String) (now : Nat) :
    bulkAccOf db user traineeIds taskIds scores notes now =
      (crossPairs (bulkTrainees db traineeIds) (bulkTasks db taskIds)).foldl
        (processPair user scores notes now) ⟨db.signoffs, 0, 0, [], []⟩ := rfl

/-- C1: bulk sign-off is all-or-nothing at the validation level: when any
(trainee, task) pair of the batch is authorized but fails a hard validation
rule, the response reports failure, the database is unchanged (zero SignOff
rows persisted), the error list holds exactly the entries of the hard-failing
authorized pairs (so it is nonempty), and created+updated still reports the
number of attempted writes (the authorized pairs that passed validation). -/
theorem c1_bulk_all_or_nothing (db : DB) (user : User)
    (traineeIds taskIds : List Nat) (scores : List (Nat × String))
    (notes : String) (now : Nat) (r : BulkResults)
    (hr : (bulkSignOff db user traineeIds taskIds scores notes now).1 =
      .results r)
    (hbad : ∃ p ∈ crossPairs (bulkTrainees db traineeIds) (bulkTasks db taskIds),
      pairAuthorized user p = true ∧ pairValid scores p = false) :
    r.success = false ∧
    (bulkSignOff db user traineeIds taskIds scores notes now).2 = db ∧
    r.errors ≠ [] ∧
    r.created + r.updated =
      ((crossPairs (bulkTrainees db traineeIds) (bulkTasks db taskIds)).filter
        (fun p => pairAuthorized user p && pairValid scores p)).length ∧
    r.errors =
      ((crossPairs (bulkTrainees db traineeIds) (bulkTasks db taskIds)).filter
        (fun p => pairAuthorized user p && !pairValid scores p)).map
        (mkErrEntry scores) := by
  obtain ⟨hchar, hdb⟩ :=
    bulkSignOff_results db user traineeIds taskIds scores notes now r hr
  have hloop := bulkLoop_spec user scores notes now
    (crossPairs (bulkTrainees db traineeIds) (bulkTasks db taskIds))
    ⟨db.signoffs, 0, 0, [], []⟩
  rw [← bulkAccOf_def db user traineeIds taskIds scores notes now] at hloop
  obtain ⟨p, hp, hpa, hpv⟩ := hbad
  have herreq : (bulkAccOf db user traineeIds taskIds scores notes now).errors =
      ((crossPairs (bulkTrainees db traineeIds) (bulkTasks db taskIds)).filter
        (fun q => pairAuthorized user q && !pairValid scores q)).map
        (mkErrEntry scores) := by
    have he := hloop.2.1
    simpa using he
  have herrne : (bulkAccOf db user traineeIds taskIds scores notes now).errors ≠
      [] := by
    rw [herreq]
    have hpf : p ∈ (crossPairs (bulkTrainees db traineeIds)
        (bulkTasks db taskIds)).filter
        (fun q => pairAuthorized user q && !pairValid scores q) :=
      List.mem_filter.mpr ⟨hp, by simp [hpa, hpv]⟩
    exact List.ne_nil_of_mem (List.mem_map_of_mem _ hpf)
  have hempty : (bulkAccOf db user traineeIds taskIds scores notes
      now).errors.isEmpty = false := by
    rw [List.isEmpty_eq_false]
    exact herrne
  refine ⟨?_, ?_, ?_, ?_, ?_⟩
  · rw [hchar]
    exact hempty
  · rw [hdb, if_neg (by simp [hempty])]
  · rw [hchar]
    exact herrne
  · rw [hchar]
    have := hloop.1
    simpa using this
  · rw [hchar]
    exact herreq

/-- C1 witness: a batch of one trainee and two tasks where the required-score
task gets a below-minimum score and the other pair is valid. -/
theorem c1_bulk_all_or_nothing_witness :
    (BulkResults.mk false 1 0 []
        [⟨"#2501", "Quiz", SignOffError.belowMinimum⟩]).success = false ∧
    (bulkSignOff sampleDB sampleUser [5] [10, 11] [(10, "50")] "" 4).2 =
      sampleDB ∧
    (BulkResults.mk false 1 0 []
        [⟨"#2501", "Quiz", SignOffError.belowMinimum⟩]).errors ≠ [] ∧
    (BulkResults.mk false 1 0 []
          [⟨"#2501", "Quiz", SignOffError.belowMinimum⟩]).created +
        (BulkResults.mk false 1 0 []
          [⟨"#2501", "Quiz", SignOffError.belowMinimum⟩]).updated =
      ((crossPairs (bulkTrainees sampleDB [5]) (bulkTasks sampleDB [10, 11])).filter
        (fun p => pairAuthorized sampleUser p && pairValid [(10, "50")] p)).length ∧
    (BulkResults.mk false 1 0 []
        [⟨"#2501", "Quiz", SignOffError.belowMinimum⟩]).errors =
      ((crossPairs (bulkTrainees sampleDB [5]) (bulkTasks sampleDB [10, 11])).filter
        (fun p => pairAuthorized sampleUser p && !pairValid [(10, "50")] p)).map
        (mkErrEntry [(10, "50")]) :=
  c1_bulk_all_or_nothing sampleDB sampleUser [5] [10, 11] [(10, "50")] "" 4
    ⟨false, 1, 0, [], [⟨"#2501", "Quiz", SignOffError.belowMinimum⟩]⟩
    (by rfl)
    ⟨(sampleTrainee, quizTask), by decide, by rfl, by rfl⟩

/-- C6: an unauthorized (trainee, task) pair in a bulk batch is recorded in
the skipped list with a reason, is never counted as an error (every error
entry arises from an authorized pair), and does not block the batch: when
every authorized pair passes validation, the response reports success and
every authorized pair's sign-off is committed. -/
theorem c6_bulk_auth_skipped (db : DB) (user : User)
    (traineeIds taskIds : List Nat) (scores : List (Nat × String))
    (notes : String) (now : Nat) (r : BulkResults) (p : Trainee × Task)
    (hr : (bulkSignOff db user traineeIds taskIds scores notes now).1 =
      .results r)
    (hp : p ∈ crossPairs (bulkTrainees db traineeIds) (bulkTasks db taskIds))
    (hauth : pairAuthorized user p = false) :
    mkSkipEntry p ∈ r.skipped ∧
    r.errors =
      ((crossPairs (bulkTrainees db traineeIds) (bulkTasks db taskIds)).filter
        (fun q => pairAuthorized user q && !pairValid scores q)).map
        (mkErrEntry scores) ∧
    ((∀ q ∈ crossPairs (bulkTrainees db traineeIds) (bulkTasks db taskIds),
        pairAuthorized user q = true → pairValid scores q = true) →
      r.success = true ∧
      ∀ q ∈ crossPairs (bulkTrainees db traineeIds) (bulkTasks db taskIds),
        pairAuthorized user q = true →
        (((bulkSignOff db user traineeIds taskIds scores notes
            now).2).signoffs.find? (soKey q.1.pk q.2.pk)).isSome) := by
  obtain ⟨hchar, hdb⟩ :=
    bulkSignOff_results db user traineeIds taskIds scores notes now r hr
  have hloop := bulkLoop_spec user scores notes now
    (crossPairs (bulkTrainees db traineeIds) (bulkTasks db taskIds))
    ⟨db.signoffs, 0, 0, [], []⟩
  rw [← bulkAccOf_def db user traineeIds taskIds scores notes now] at hloop
  refine ⟨?_, ?_, ?_⟩
  · rw [hchar]
    have hsk := hloop.2.2.1
    have hpf : p ∈ (crossPairs (bulkTrainees db traineeIds)
        (bulkTasks db taskIds)).filter (fun q => !pairAuthorized user q) :=
      List.mem_filter.mpr ⟨hp, by simp [hauth]⟩
    have : mkSkipEntry p ∈ (bulkAccOf db user traineeIds taskIds scores notes
        now).skipped := by
      rw [hsk]
      simpa using List.mem_map_of_mem mkSkipEntry hpf
    simpa using this
  · rw [hchar]
    have he := hloop.2.1
    simpa using he
  · intro hall
    have herrnil : (bulkAccOf db user traineeIds taskIds scores notes
        now).errors = [] := by
      have he := hloop.2.1
      have hfe : (crossPairs (bulkTrainees db traineeIds)
          (bulkTasks db taskIds)).filter
          (fun q => pairAuthorized user q && !pairValid scores q) = [] := by
        rw [List.filter_eq_nil_iff]
        intro q hq hqp
        rw [Bool.and_eq_true] at hqp
        have := hall q hq hqp.1
        rw [this] at hqp
        simp at hqp
      rw [hfe] at he
      simpa using he
    have hempty : (bulkAccOf db user traineeIds taskIds scores notes
        now).errors.isEmpty = true := by
      rw [herrnil]
      rfl
    refine ⟨by rw [hchar]; exact hempty, ?_⟩
    intro q hq hqa
    have hqv := hall q hq hqa
    have hkey := hloop.2.2.2.2 q hq (by simp [hqa, hqv])
    rw [hdb, if_pos (by simp [hempty])]
    exact hkey

/-- C6 witness: a batch over the no-score task (valid) and a task the user
may not sign (skipped) succeeds, commits the valid pair and skips the
other. -/
theorem c6_bulk_auth_skipped_witness :
    mkSkipEntry (sampleTrainee, restrictedTask) ∈
      (BulkResults.mk true 1 0
        [⟨"#2501", "Restricted", "Not authorized to sign off this task"⟩]
        []).skipped ∧
    (BulkResults.mk true 1 0
        [⟨"#2501", "Restricted", "Not authorized to sign off this task"⟩]
        []).errors =
      ((crossPairs (bulkTrainees c6DB [5]) (bulkTasks c6DB [11, 13])).filter
        (fun q => pairAuthorized sampleUser q && !pairValid [] q)).map
        (mkErrEntry []) ∧
    ((∀ q ∈ crossPairs (bulkTrainees c6DB [5]) (bulkTasks c6DB [11, 13]),
        pairAuthorized sampleUser q = true → pairValid [] q = true) →
      (BulkResults.mk true 1 0
        [⟨"#2501", "Restricted", "Not authorized to sign off this task"⟩]
        []).success = true ∧
      ∀ q ∈ crossPairs (bulkTrainees c6DB [5]) (bulkTasks c6DB [11, 13]),
        pairAuthorized sampleUser q = true →
        (((bulkSignOff c6DB sampleUser [5] [11, 13] [] "" 4).2).signoffs.find?
          (soKey q.1.pk q.2.pk)).isSome) :=
  c6_bulk_auth_skipped c6DB sampleUser [5] [11, 13] [] "" 4
    ⟨true, 1, 0,
      [⟨"#2501", "Restricted", "Not authorized to sign off this task"⟩], []⟩
    (sampleTrainee, restrictedTask)
    (by rfl) (by decide) (by rfl)

/-- C9 (counterexample): the numeric-pattern invariant does not hold: for a
task that does not require a score, `sign_off_task` accepts and stores any
string — here "abc", which does not match `SignOff.score_validator`'s
pattern (model validators do not run on `save()`). -/
theorem c9_counterexample :
    signOffTask sampleDB sampleUser sampleTrainee tourTask "abc" "" 3 =
      .ok ⟨[sampleCohort], [sampleTrainee], [quizTask, tourTask],
        [⟨5, 11, some 1, 3, "abc", ""⟩], [], []⟩ ∧
    (⟨5, 11, some 1, 3, "abc", ""⟩ : SignOff) ∈
      ([⟨5, 11, some 1, 3, "abc", ""⟩] : List SignOff) ∧
    scorePattern "abc" = false := by
  exact ⟨by rfl, by simp, by rfl⟩

/-- A score that passed the hard validation of a required-score task with a
minimum is nonempty, parses under `float()`, and does not compare below the
minimum. -/
theorem validateScore_none {tk : Task} {score : String} {m : Rat}
    (h : validateScore tk score = none) (hreq : tk.requiresScore = true)
    (hmin : tk.minimumScore = some m) :
    score ≠ "" ∧ ∃ v, pyFloat? score = some v ∧ pyLt v m = false := by
  unfold validateScore at h
  rw [hreq, hmin] at h
  simp only [if_true, ite_true] at h
  by_cases hs : score = ""
  · rw [if_pos hs] at h
    cases h
  · rw [if_neg hs] at h
    cases hv : pyFloat? score with
    | none => rw [hv] at h; cases h
    | some v =>
      rw [hv] at h
      dsimp only at h
      by_cases hlt : pyLt v m = true
      · rw [if_pos hlt] at h
        cases h
      · exact ⟨hs, v, rfl, Bool.eq_false_iff.mpr hlt⟩

/-- Loop invariant: every sign-off row after the bulk loop is either an
original row or carries a score that passed validation for a task (from the
given catalog) with its key. -/
theorem bulkLoop_score_inv (user : User) (scores : List (Nat × String))
    (notes : String) (now : Nat) (base : List SignOff) (dbTasks : List Task) :
    ∀ (pairs : List (Trainee × Task)) (acc : BulkAcc),
      (∀ s ∈ acc.signoffs, s ∈ base ∨
        ∃ tk ∈ dbTasks, tk.pk = s.taskPk ∧ validateScore tk s.score = none) →
      (∀ p ∈ pairs, p.2 ∈ dbTasks) →
      ∀ s ∈ (pairs.foldl (processPair user scores notes now) acc).signoffs,
        s ∈ base ∨
          ∃ tk ∈ dbTasks, tk.pk = s.taskPk ∧ validateScore tk s.score = none := by
  intro pairs
  induction pairs with
  | nil =>
    intro acc hacc _
    simpa using hacc
  | cons p rest ih =>
    intro acc hacc hpairs
    simp only [List.foldl_cons]
    refine ih (processPair user scores notes now acc p) ?_
      (fun q hq => hpairs q (List.mem_cons_of_mem p hq))
    intro s hs
    by_cases hauth : canUserSignOff p.2 user = true
    · cases hv : validateScore p.2 (bulkScore scores p.2.pk) with
      | some e =>
        have hred : processPair user scores notes now acc p =
            { acc with errors := acc.errors ++
              [⟨p.1.badgeNumber, p.2.name, e⟩] } := by
          simp [processPair, hauth, hv]
        rw [hred] at hs
        exact hacc s hs
      | none =>
        cases hfind : acc.signoffs.find? (soKey p.1.pk p.2.pk) with
        | some s0 =>
          have hred : processPair user scores notes now acc p =
              { acc with
                signoffs := acc.signoffs.map (fun x =>
                  if soKey p.1.pk p.2.pk x then
                    { x with
                      signedBy := some user.pk
                      score := bulkScore scores p.2.pk
                      notes := notes }
                  else x)
                updated := acc.updated + 1 } := by
            simp [processPair, hauth, hv, hfind]
          rw [hred] at hs
          obtain ⟨x, hx, hxe⟩ := List.mem_map.mp hs
          by_cases hxk : soKey p.1.pk p.2.pk x = true
          · rw [if_pos hxk] at hxe
            right
            have hxk2 : x.taskPk = p.2.pk := by
              simp only [soKey, Bool.and_eq_true, decide_eq_true_eq] at hxk
              exact hxk.2
            refine ⟨p.2, hpairs p (List.mem_cons_self p rest), ?_, ?_⟩
            · rw [← hxe]
              exact hxk2.symm
            · rw [← hxe]
              exact hv
          · rw [if_neg hxk] at hxe
            rw [← hxe]
            exact hacc x hx
        | none =>
          have hred : processPair user scores notes now acc p =
              { acc with
                signoffs := acc.signoffs ++
                  [⟨p.1.pk, p.2.pk, some user.pk, now,
                    bulkScore scores p.2.pk, notes⟩]
                created := acc.created + 1 } := by
            simp [processPair, hauth, hv, hfind]
          rw [hred] at hs
          rcases List.mem_append.mp hs with hl | hrr
          · exact hacc s hl
          · right
            have hseq : s = ⟨p.1.pk, p.2.pk, some user.pk, now,
                bulkScore scores p.2.pk, notes⟩ := by
              simpa using hrr
            subst hseq
            exact ⟨p.2, hpairs p (List.mem_cons_self p rest), rfl, hv⟩
    · have hred : processPair user scores notes now acc p =
          { acc with skipped := acc.skipped ++
            [⟨p.1.badgeNumber, p.2.name,
              "Not authorized to sign off this task"⟩] } := by
        simp [processPair, hauth]
      rw [hred] at hs
      exact hacc s hs

/-- `bulk_sign_off` leaves the state unchanged or commits exactly the loop
accumulator's sign-off table. -/
theorem bulkSignOff_state (db : DB) (user : User)
    (traineeIds taskIds : List Nat) (scores : List (Nat × String))
    (notes : String) (now : Nat) :
    (bulkSignOff db user traineeIds taskIds scores notes now).2 = db ∨
    (bulkSignOff db user traineeIds taskIds scores notes now).2 =
      { db with signoffs :=
        (bulkAccOf db user traineeIds taskIds scores notes now).signoffs } := by
  unfold bulkSignOff
  cases hp : user.profile with
  | none => exact Or.inl rfl
  | some prof =>
    dsimp only
    split
    · exact Or.inl rfl
    · split
      · exact Or.inl rfl
      · split
        · exact Or.inl rfl
        · split
          · exact Or.inl rfl
          · split
            · exact Or.inl rfl
            · split
              · exact Or.inl rfl
              · split
                · exact Or.inl rfl
                · split
                  · exact Or.inr rfl
                  · exact Or.inl rfl

/-- C9 (amended): the stored-score invariant that actually holds: a score
persisted by the sign-off operations on a task with `requires_score` and a
non-null minimum is nonempty, parses under Python `float`, and does not
compare below the minimum; for other tasks the stored score may be any
string (see the counterexample), so the numeric-pattern invariant fails. -/
theorem c9_score_validated (db : DB) (user : User) :
    (∀ (db' : DB) (tr : Trainee) (tk : Task) (raw notes : String) (now : Nat)
      (m : Rat),
      signOffTask db user tr tk raw notes now = .ok db' →
      tk.requiresScore = true → tk.minimumScore = some m →
      ∃ s ∈ db'.signoffs, soKey tr.pk tk.pk s = true ∧
        s.score = pyStrip raw ∧ s.score ≠ "" ∧
        ∃ v, pyFloat? s.score = some v ∧ pyLt v m = false) ∧
    (∀ (traineeIds taskIds : List Nat) (scores : List (Nat × String))
      (notes : String) (now : Nat),
      ∀ s ∈ ((bulkSignOff db user traineeIds taskIds scores notes
          now).2).signoffs,
        s ∉ db.signoffs →
        ∃ tk ∈ db.tasks, tk.pk = s.taskPk ∧
          (tk.requiresScore = true → ∀ m, tk.minimumScore = some m →
            s.score ≠ "" ∧ ∃ v, pyFloat? s.score = some v ∧
              pyLt v m = false)) := by
  constructor
  · intro db' tr tk raw notes now m hok hreq hmin
    unfold signOffTask at hok
    cases hp : user.profile with
    | none => rw [hp] at hok; cases hok
    | some p =>
      rw [hp] at hok
      dsimp only at hok
      split at hok
      · cases hok
      · split at hok
        · cases hok
        · split at hok
          · cases hok
          · cases hval : validateScore tk (pyStrip raw) with
            | some e => rw [hval] at hok; cases hok
            | none =>
              rw [hval] at hok
              dsimp only at hok
              have hprops := validateScore_none hval hreq hmin
              cases hfind : db.signoffs.find? (soKey tr.pk tk.pk) with
              | none =>
                rw [hfind] at hok
                dsimp only at hok
                injection hok with h
                refine ⟨⟨tr.pk, tk.pk, some user.pk, now, pyStrip raw, notes⟩,
                  ?_, by simp [soKey], rfl, hprops.1, hprops.2⟩
                rw [← h]
                exact List.mem_append_right _ (List.mem_singleton_self _)
              | some s0 =>
                rw [hfind] at hok
                dsimp only at hok
                injection hok with h
                have hs0 : s0 ∈ db.signoffs := List.mem_of_find?_eq_some hfind
                have hs0k : soKey tr.pk tk.pk s0 = true := List.find?_some hfind
                refine ⟨{ s0 with
                    signedBy := some user.pk
                    score := pyStrip raw
                    notes := notes }, ?_, ?_, rfl, hprops.1, hprops.2⟩
                · rw [← h]
                  have hm := List.mem_map_of_mem (fun s =>
                    if soKey tr.pk tk.pk s then
                      { s with
                        signedBy := some user.pk
                        score := pyStrip raw
                        notes := notes }
                    else s) hs0
                  simpa [hs0k] using hm
                · simp only [soKey, Bool.and_eq_true, decide_eq_true_eq] at hs0k ⊢
                  exact hs0k
  · intro traineeIds taskIds scores notes now s hs hnotin
    rcases bulkSignOff_state db user traineeIds taskIds scores notes now with
      hst | hst
    · rw [hst] at hs
      exact absurd hs hnotin
    · rw [hst] at hs
      have hinv := bulkLoop_score_inv user scores notes now db.signoffs db.tasks
        (crossPairs (bulkTrainees db traineeIds) (bulkTasks db taskIds))
        ⟨db.signoffs, 0, 0, [], []⟩
        (fun x hx => Or.inl hx)
        (fun q hq => by
          have := (crossPairs_mem hq).2
          exact (List.mem_filter.mp this).1)
      rw [← bulkAccOf_def db user traineeIds taskIds scores notes now] at hinv
      rcases hinv s hs with hbase | ⟨tk, htk, htkpk, htkval⟩
      · exact absurd hbase hnotin
      · exact ⟨tk, htk, htkpk, fun hreq m hmin =>
          validateScore_none htkval hreq hmin⟩

/-- C9 amended witness: signing off the required-score task with "80"
stores a nonempty float-parseable score not below the 70 minimum. -/
theorem c9_score_validated_witness :
    ∃ s ∈ (DB.mk [sampleCohort] [sampleTrainee] [quizTask, tourTask]
        [⟨5, 10, some 1, 6, "80", ""⟩] [] []).signoffs,
      soKey sampleTrainee.pk quizTask.pk s = true ∧
      s.score = pyStrip "80" ∧ s.score ≠ "" ∧
      ∃ v, pyFloat? s.score = some v ∧ pyLt v 70 = false :=
  (c9_score_validated sampleDB sampleUser).1
    ⟨[sampleCohort], [sampleTrainee], [quizTask, tourTask],
      [⟨5, 10, some 1, 6, "80", ""⟩], [], []⟩
    sampleTrainee quizTask "80" "" 6 70 (by rfl) (by rfl) (by rfl)

end

end Tracker
